import Mathlib

/-!
Verification of the socotra migration tutorial pipeline: a shallow embedding of
the hierarchical transformer (apps/converter/convert.py) and of the
post-migration completeness verifier (apps/checks/checks.py), together with
theorems about the properties the specification states.

Conventions of the embedding:
- JSON string fields that may be absent are Option String (none = key absent
  or JSON null).
- Python truthiness on such a field: none and the empty string are falsy.
- The filesystem is passed in as data: a directory listing is a list, a file
  that may be missing is an Option.
- Exceptions are Except String; sys.exit is a Sum.inl exit code.
- uuid.uuid4() is modelled by an injective generator gen : Nat -> String whose
  next index is threaded through the run; freshness of uuid4 is the
  injectivity hypothesis.
- Python sorted(xs, key=f) is List.insertionSort on a decidable total order
  (same sortedness and permutation guarantees; Python int() on the canonical
  decimal directory/file names is strToInt; Python str comparison is charsLt,
  lexicographic by code point).
-/

namespace Migration

/-- Stable map over a list in the Except monad, embedding a Python loop that
appends results and lets exceptions propagate. -/
def mapE {α β : Type} (f : α → Except String β) : List α → Except String (List β)
  | [] => Except.ok []
  | a :: as =>
    match f a with
    | Except.error e => Except.error e
    | Except.ok b =>
      match mapE f as with
      | Except.error e => Except.error e
      | Except.ok bs => Except.ok (b :: bs)

/-- Ordering of key/value pairs by an integer sort key (the comparison done by
Python sorted with an int key). -/
def keyLe {α : Type} (a b : Int × α) : Prop := a.1 ≤ b.1

instance {α : Type} : DecidableRel (@keyLe α) :=
  fun a b => inferInstanceAs (Decidable (a.1 ≤ b.1))

instance {α : Type} : IsTotal (Int × α) keyLe := ⟨fun a b => Int.le_total a.1 b.1⟩

instance {α : Type} : IsTrans (Int × α) keyLe := ⟨fun _ _ _ hab hbc => le_trans hab hbc⟩

/-- Lexicographic strict comparison of character lists by code point, the
comparison Python uses on str. -/
def charsLt : List Char → List Char → Bool
  | [], [] => false
  | [], _ :: _ => true
  | _ :: _, [] => false
  | a :: as, b :: bs => if a < b then true else if b < a then false else charsLt as bs

/-- Python strict string comparison. -/
def pyStrLt (a b : String) : Bool := charsLt a.data b.data

/-- Python non-strict string comparison (the negation of the converse strict
one, as in a total order). -/
def pyStrLe (a b : String) : Bool := !(pyStrLt b a)

/-- One decimal digit. -/
def digitVal (c : Char) : Option Nat :=
  if '0' ≤ c ∧ c ≤ '9' then some (c.toNat - 48) else none

/-- Accumulate decimal digits; none if a non-digit appears or no digit was
seen at all. -/
def parseDigits : List Char → Option Nat → Option Nat
  | [], acc => acc
  | c :: cs, acc =>
    match digitVal c with
    | some d => parseDigits cs (some (acc.getD 0 * 10 + d))
    | none => none

/-- Embeds Python int() on the canonical directory/file names appearing in
the source tree: an optional leading minus sign followed by decimal digits. -/
def strToInt (s : String) : Option Int :=
  match s.data with
  | '-' :: rest => (parseDigits rest none).map (fun n => -(n : Int))
  | l => (parseDigits l none).map (fun n => (n : Int))

/-- Embeds Python sorted(xs, key=lambda x: int(keyStr x)): computing a key can
raise ValueError (here: toInt? = none), which propagates. -/
def sortByIntKey {α : Type} (keyStr : α → String) (l : List α) : Except String (List α) :=
  match mapE (fun a =>
      match strToInt (keyStr a) with
      | some k => Except.ok ((k, a) : Int × α)
      | none => Except.error "invalid literal for int()") l with
  | Except.error e => Except.error e
  | Except.ok keyed => Except.ok ((List.insertionSort keyLe keyed).map Prod.snd)

/-- Embeds Python str.split(sep, 1) restricted to the cases the converter
uses: none when the character never occurs (split returned a single part),
otherwise the text before and after the first occurrence. -/
def splitCharFirst (c : Char) : List Char → Option (List Char × List Char)
  | [] => none
  | x :: xs =>
    if x = c then some ([], xs)
    else (splitCharFirst c xs).map (fun p => (x :: p.1, p.2))

/-- The dash character on which policy references and account stems split. -/
def chr45 : Char := '-'

/-- First-dash split of a reference string, as in s.split(chr(45), 1) with a
required two-way unpacking. -/
def splitFirstDash (s : String) : Option (String × String) :=
  (splitCharFirst chr45 s.data).map (fun p => (String.mk p.1, String.mk p.2))

/-- Python truthiness of an optional string: absent and empty are falsy. -/
def pyTruthy : Option String → Bool
  | none => false
  | some t => t ≠ ""

/-- Python min over a list of strings (lexicographic by code point); none for
the empty list, where Python would raise (the source guards with a
conditional expression). -/
def listMin : List String → Option String
  | [] => none
  | x :: xs => some (xs.foldl (fun a b => if pyStrLt b a then b else a) x)

/-! ## Converter data model (apps/converter/convert.py) -/

/-- Parsed contents of one tx_<n>.json transaction file. -/
structure TxRaw where
  created : Option String
  issued : Option String
  start : Option String
  type : Option String
deriving DecidableEq, Repr

/-- One file matched by glob tx_star.json inside a transactions directory;
suffix is the text after the underscore of the stem (stem.split(us)[1]). -/
structure TxFileEntry where
  suffix : String
  raw : TxRaw
deriving DecidableEq, Repr

/-- Parsed contents of a term.json descriptor; stop embeds the JSON field
named end (a Lean keyword). -/
structure TermRaw where
  start : Option String
  stop : Option String
deriving DecidableEq, Repr

/-- One entry of terms-directory iterdir(): its name, whether it is a
directory, its term.json if present, and its transactions directory listing
if present. -/
structure TermDirEntry where
  name : String
  isDir : Bool
  termJson : Option TermRaw
  txDir : Option (List TxFileEntry)
deriving DecidableEq, Repr

/-- Parsed contents of policy.json; id is the f-string rendering of the raw
id value. -/
structure PolicyRaw where
  id : String
  productName : Option String
  timezone : Option String
  currency : Option String
deriving DecidableEq, Repr

/-- A policies/policy-<n>/ directory: its policy.json if present and its
terms/ listing if that directory exists. -/
structure PolicyDir where
  policyJson : Option PolicyRaw
  termsDir : Option (List TermDirEntry)
deriving DecidableEq, Repr

/-- Output rootElement object. -/
structure RootElement where
  id : String
  elementType : Option String
deriving DecidableEq, Repr

/-- Output segment object. -/
structure Segment where
  rootElement : RootElement
  segmentType : String
  startTime : Option String
deriving DecidableEq, Repr

/-- Output transaction object. -/
structure Transaction where
  transactionType : Option String
  createdAt : Option String
  issuedTime : Option String
  segment : Segment
deriving DecidableEq, Repr

/-- Output term object. -/
structure Term where
  startTime : Option String
  endTime : Option String
  transactions : List Transaction
deriving DecidableEq, Repr

/-- Output policy document. -/
structure PolicyDoc where
  id : String
  productName : Option String
  timezone : Option String
  currency : Option String
  billingLevel : String
  durationBasis : String
  createdAt : Option String
  terms : List Term
deriving DecidableEq, Repr

/-- Segment type classification: cancellations become gaps, everything else
(including absent or empty type) is coverage. -/
def segType (txType : Option String) : String :=
  if txType = some "cancellation" then "gap" else "coverage"

/-- Build one output transaction from a raw transaction, reusing the policy
root uuid. -/
def transform_tx (rootId : String) (productName : Option String) (tr : TxRaw) : Transaction :=
  { transactionType := tr.type
    createdAt := tr.created
    issuedTime := tr.issued
    segment :=
      { rootElement := { id := rootId, elementType := productName }
        segmentType := segType tr.type
        startTime := tr.start } }

/-- Process one term directory entry (already known to be a directory):
load term.json, require the transactions directory, sort transaction files by
numeric suffix, transform each. -/
def transform_term (rootId : String) (productName : Option String) (e : TermDirEntry) :
    Except String Term :=
  match e.termJson with
  | none => Except.error "Missing term.json"
  | some traw =>
    match e.txDir with
    | none => Except.error "Missing transactions directory"
    | some files =>
      match sortByIntKey TxFileEntry.suffix files with
      | Except.error err => Except.error err
      | Except.ok sfiles =>
        Except.ok
          { startTime := traw.start
            endTime := traw.stop
            transactions := sfiles.map (fun f => transform_tx rootId productName f.raw) }

/-- The created dates collected while building the terms: each transaction
whose created value is truthy contributes it, in iteration order (the
created_dates list of the source). -/
def collectCreated (terms : List Term) : List String :=
  terms.flatMap (fun t =>
    t.transactions.filterMap (fun tx => if pyTruthy tx.createdAt then tx.createdAt else none))

/-- transform_policy of convert.py: load policy.json, use the single fresh
root uuid (passed in as rootId), sort term directories numerically, skip
non-directories, transform each term, and derive the policy createdAt as the
minimum collected created date. -/
def transform_policy (rootId : String) (pd : PolicyDir) : Except String PolicyDoc :=
  match pd.policyJson with
  | none => Except.error "Missing policy.json"
  | some raw =>
    match pd.termsDir with
    | none => Except.error "Missing terms directory"
    | some entries =>
      match sortByIntKey TermDirEntry.name entries with
      | Except.error err => Except.error err
      | Except.ok sentries =>
        match mapE (transform_term rootId raw.productName)
            (sentries.filter (fun e => e.isDir)) with
        | Except.error err => Except.error err
        | Except.ok terms =>
          Except.ok
            { id := "policy_" ++ raw.id
              productName := raw.productName
              timezone := raw.timezone
              currency := raw.currency
              billingLevel := "inherit"
              durationBasis := "months"
              createdAt := listMin (collectCreated terms)
              terms := terms }

/-! ## Account level and main (apps/converter/convert.py) -/

/-- Opaque key/value payload carried through from the source account fields. -/
abbrev Payload : Type := List (String × String)

/-- Parsed contents of an accounts/account-<id>.json file. -/
structure AccountRaw where
  type : Option String
  fields : Option Payload
  billing : Option String
  created : Option String
  policies : List String
deriving DecidableEq, Repr

/-- Output accountData object. -/
structure AccountData where
  id : String
  accountType : Option String
  data : Payload
  billingLevel : Option String
  createdAt : Option String
deriving DecidableEq, Repr

/-- One output account record of the migration request. -/
structure AccountDoc where
  accountData : AccountData
  defaultCreatedBy : String
  policies : List PolicyDoc
deriving DecidableEq, Repr

/-- The directory a policy reference resolves to: the text before the first
dash is discarded and replaced by the literal policy- stem; none when the
reference has no dash (split produced a single part). -/
def policyRefTarget (pref : String) : Option String :=
  (splitFirstDash pref).map (fun p => "policy-" ++ p.2)

/-- Look a directory name up in the policies/ listing (the is_dir check of the
source: the subdirectory exists or it does not). -/
def lookupDir (pdirs : List (String × PolicyDir)) (n : String) : Option PolicyDir :=
  (pdirs.find? (fun p => p.1 == n)).map Prod.snd

/-- The policy-reference loop of transform_account. Unparsable references and
references to missing directories are warn-and-skip; a transform_policy
exception propagates. The uuid counter k is threaded and returned even on the
error path, so fresh indices are never reused. -/
def transform_accountPolicies (gen : Nat → String) (pdirs : List (String × PolicyDir)) :
    List String → Nat → Except String (List PolicyDoc) × Nat
  | [], k => (Except.ok [], k)
  | pref :: rest, k =>
    match policyRefTarget pref with
    | none => transform_accountPolicies gen pdirs rest k
    | some nm =>
      match lookupDir pdirs nm with
      | none => transform_accountPolicies gen pdirs rest k
      | some pd =>
        match transform_policy (gen k) pd with
        | Except.error e => (Except.error e, k + 1)
        | Except.ok doc =>
          match transform_accountPolicies gen pdirs rest (k + 1) with
          | (Except.error e, k') => (Except.error e, k')
          | (Except.ok docs, k') => (Except.ok (doc :: docs), k')

/-- Stem of a filename: the name with its final .json suffix removed (all
account files processed by main match the glob, so the suffix is present). -/
def fileStem (n : String) : String := String.mk (n.data.take (n.data.length - 5))

/-- transform_account of convert.py: derive the account id from the filename
stem, build accountData, and run the policy-reference loop. -/
def transform_account (gen : Nat → String) (k : Nat) (fname : String) (raw : AccountRaw)
    (pdirs : List (String × PolicyDir)) (dcb : String) :
    Except String AccountDoc × Nat :=
  match splitFirstDash (fileStem fname) with
  | none => (Except.error "Invalid account filename", k)
  | some p =>
    match transform_accountPolicies gen pdirs raw.policies k with
    | (Except.error e, k') => (Except.error e, k')
    | (Except.ok pols, k') =>
      (Except.ok
        { accountData :=
            { id := p.2
              accountType := raw.type
              data := raw.fields.getD default
              billingLevel := raw.billing
              createdAt := raw.created }
          defaultCreatedBy := dcb
          policies := pols }, k')

/-- Whether a filename matches the glob account-star.json. -/
def matchesAccountGlob (n : String) : Bool :=
  "account-".data.isPrefixOf n.data && ".json".data.isSuffixOf n.data

/-- Ordering of directory entries by filename, the comparison behind Python
sorted over paths of one directory (lexicographic by code point). -/
def nameLe {α : Type} (a b : String × α) : Prop := pyStrLe a.1 b.1 = true

instance {α : Type} : DecidableRel (@nameLe α) :=
  fun a b => inferInstanceAs (Decidable (pyStrLe a.1 b.1 = true))

/-- sorted(accounts_dir.glob(pattern)): keep matching filenames, sort them
lexicographically. -/
def accountFiles (listing : List (String × AccountRaw)) : List (String × AccountRaw) :=
  List.insertionSort nameLe (listing.filter (fun p => matchesAccountGlob p.1))

/-- The account loop of main: each account is transformed to completion; a
transform exception is a warning and the account is skipped; the uuid counter
advances either way. -/
def convert_accounts (gen : Nat → String) (pdirs : List (String × PolicyDir)) (dcb : String) :
    List (String × AccountRaw) → Nat → List AccountDoc
  | [], _ => []
  | (fname, raw) :: rest, k =>
    match transform_account gen k fname raw pdirs dcb with
    | (Except.ok doc, k') => doc :: convert_accounts gen pdirs dcb rest k'
    | (Except.error _, k') => convert_accounts gen pdirs dcb rest k'

/-- The source tree handed to the converter: the accounts/ and policies/
directories, each possibly missing. -/
structure SourceTree where
  accounts : Option (List (String × AccountRaw))
  policies : Option (List (String × PolicyDir))

/-- main of convert.py: a missing accounts/ or policies/ root directory aborts
the run (none); otherwise every matching account file is processed in sorted
order and the successful records are collected. -/
def convert_main (gen : Nat → String) (tree : SourceTree) (dcb : String) :
    Option (List AccountDoc) :=
  match tree.accounts with
  | none => none
  | some listing =>
    match tree.policies with
    | none => none
    | some pdirs => some (convert_accounts gen pdirs dcb (accountFiles listing) 0)

/-! ## Completeness verifier (apps/checks/checks.py) -/

/-- A diagnostic line of the checks report, by its tag and content. -/
inductive Diag
  | status (locator status : String)
  | mappingsFetchFail (locator msg : String)
  | mappingsMissing (locator : String) (missing : List String)
deriving DecidableEq, Repr

/-- Extract the id from a filename of the form account-<id>.json, as the
startswith/endswith test plus slicing of load_source_accounts. -/
def extractAccountId (n : String) : Option String :=
  if "account-".data.isPrefixOf n.data && ".json".data.isSuffixOf n.data then
    some (String.mk ((n.data.drop 8).take (n.data.length - 13)))
  else none

/-- load_source_accounts of checks.py: a missing accounts/ subdirectory is
sys.exit(1) (error), otherwise the ids of all matching filenames. The listing
is read afresh on every call. -/
def load_source_accounts (accountsListing : Option (List String)) :
    Except Unit (List String) :=
  match accountsListing with
  | none => Except.error ()
  | some files => Except.ok (files.filterMap extractAccountId)

/-- Python str.lower, character by character. -/
def pyLower (s : String) : String := String.mk (s.data.map Char.toLower)

/-- The set difference set(expected_ids) - migrated_ids, represented as the
deduplicated expected ids that were not migrated. -/
def missingIds (expected : List String) (migrated : List (Option String)) : List String :=
  expected.dedup.filter (fun e => !(migrated.contains (some e)))

/-- Exit-or-result of the checks run: Sum.inl is a sys.exit code, Sum.inr the
final error list; the Nat counts invocations of load_source_accounts. -/
abbrev ChecksResult := (Sum Nat (List Diag)) × Nat

/-- The per-request loop of checks.py main. fetch abstracts fetch_mappings
over the network: for each locator, either the accumulated mapping
originalAccountId values or the raised exception text. -/
def checksLoop (fetch : String → Except String (List (Option String)))
    (accountsListing : Option (List String)) :
    List (String × String) → List Diag → Nat → ChecksResult
  | [], errs, cnt => (Sum.inr errs, cnt)
  | (locator, status) :: rest, errs, cnt =>
    if pyLower status ≠ "finished" then
      checksLoop fetch accountsListing rest (errs ++ [Diag.status locator status]) cnt
    else
      match fetch locator with
      | Except.error e =>
        checksLoop fetch accountsListing rest (errs ++ [Diag.mappingsFetchFail locator e]) cnt
      | Except.ok migrated =>
        match load_source_accounts accountsListing with
        | Except.error _ => (Sum.inl 1, cnt + 1)
        | Except.ok expected =>
          let missing := missingIds expected migrated
          if missing = [] then checksLoop fetch accountsListing rest errs (cnt + 1)
          else
            checksLoop fetch accountsListing rest
              (errs ++ [Diag.mappingsMissing locator missing]) (cnt + 1)

/-- The environment of one checks.py run: the parsed CSV rows, whether the
source-data root is a directory, and the accounts/ listing when that
subdirectory exists. -/
structure ChecksEnv where
  requests_list : List (String × String)
  source_data_isdir : Bool
  accounts_listing : Option (List String)

/-- main of checks.py: exit 1 on an empty request list or a missing
source-data root, then the per-request loop. -/
def checks_main (env : ChecksEnv) (fetch : String → Except String (List (Option String))) :
    ChecksResult :=
  if env.requests_list.isEmpty then (Sum.inl 1, 0)
  else if !env.source_data_isdir then (Sum.inl 1, 0)
  else checksLoop fetch env.accounts_listing env.requests_list [] 0

/-! ## Paginated mapping fetcher (fetch_mappings of checks.py) -/

/-- One JSON response of the mappings/list endpoint. -/
structure Page (α : Type) where
  items : List α
  listCompleted : Bool

/-- The while-True pagination loop of fetch_mappings, with fuel: none means
the fuel ran out while the Python loop would still be iterating. Each
iteration requests the current offset, appends the items and records the
offset; it stops exactly when listCompleted is true, else advances the offset
by the page size. -/
def fetch_go {α : Type} (server : Nat → Page α) (pageSize : Nat) :
    Nat → Nat → List α → List Nat → Option (List α × List Nat)
  | 0, _, _, _ => none
  | fuel + 1, offset, acc, reqs =>
    let data := server offset
    let acc' := acc ++ data.items
    let reqs' := reqs ++ [offset]
    if data.listCompleted then some (acc', reqs')
    else fetch_go server pageSize fuel (offset + pageSize) acc' reqs'

/-- fetch_mappings of checks.py: paginate from offset 0, returning the
accumulated items and the sequence of offsets requested. -/
def fetch_mappings {α : Type} (server : Nat → Page α) (pageSize fuel : Nat) :
    Option (List α × List Nat) :=
  fetch_go server pageSize fuel 0 [] []

/-! ## Helper lemmas about the embedding combinators -/

instance {ε α : Type} [DecidableEq ε] [DecidableEq α] : DecidableEq (Except ε α) := fun x y =>
  match x, y with
  | Except.ok a, Except.ok b =>
    if h : a = b then isTrue (by rw [h]) else isFalse (by intro hh; cases hh; exact h rfl)
  | Except.error a, Except.error b =>
    if h : a = b then isTrue (by rw [h]) else isFalse (by intro hh; cases hh; exact h rfl)
  | Except.ok _, Except.error _ => isFalse (by intro hh; cases hh)
  | Except.error _, Except.ok _ => isFalse (by intro hh; cases hh)

theorem mapE_ok_forall₂ {α β : Type} {f : α → Except String β} :
    ∀ {l : List α} {l' : List β}, mapE f l = Except.ok l' →
      List.Forall₂ (fun a b => f a = Except.ok b) l l' := by
  intro l
  induction l with
  | nil =>
    intro l' h
    simp only [mapE, Except.ok.injEq] at h
    subst h
    exact List.Forall₂.nil
  | cons a as ih =>
    intro l' h
    simp only [mapE] at h
    cases hfa : f a with
    | error e => rw [hfa] at h; exact absurd h (by simp)
    | ok b =>
      rw [hfa] at h
      cases hrest : mapE f as with
      | error e => rw [hrest] at h; exact absurd h (by simp)
      | ok bs =>
        rw [hrest] at h
        simp only [Except.ok.injEq] at h
        subst h
        exact List.Forall₂.cons hfa (ih hrest)

theorem mapE_error_of_mem {α β : Type} {f : α → Except String β} {a : α} {err : String}
    (hfa : f a = Except.error err) :
    ∀ {l : List α}, a ∈ l → ∃ msg, mapE f l = Except.error msg := by
  intro l
  induction l with
  | nil => intro h; exact absurd h (List.not_mem_nil a)
  | cons x xs ih =>
    intro hmem
    cases hfx : f x with
    | error e => exact ⟨e, by simp only [mapE, hfx]⟩
    | ok b =>
      rcases List.mem_cons.mp hmem with heq | htail
      · subst heq; rw [hfa] at hfx; exact absurd hfx (by simp)
      · obtain ⟨msg, hmsg⟩ := ih htail
        exact ⟨msg, by simp only [mapE, hfx, hmsg]⟩

theorem forall₂_mem_right {α β : Type} {R : α → β → Prop} :
    ∀ {l : List α} {l' : List β}, List.Forall₂ R l l' → ∀ b ∈ l', ∃ a ∈ l, R a b := by
  intro l l' h
  induction h with
  | nil => intro b hb; exact absurd hb (List.not_mem_nil b)
  | cons hr _ ih =>
    intro b hb
    rcases List.mem_cons.mp hb with heq | htail
    · subst heq; exact ⟨_, List.mem_cons_self _ _, hr⟩
    · obtain ⟨a, ha, hab⟩ := ih b htail
      exact ⟨a, List.mem_cons_of_mem _ ha, hab⟩

/-- The ascending-by-integer-name relation the sorted output satisfies. -/
def numAsc {α : Type} (keyStr : α → String) (a b : α) : Prop :=
  ∀ ka kb : Int, strToInt (keyStr a) = some ka → strToInt (keyStr b) = some kb → ka ≤ kb

theorem forall₂_key_snd {α : Type} {keyStr : α → String} :
    ∀ {l : List α} {keyed : List (Int × α)},
      List.Forall₂ (fun a p => strToInt (keyStr a) = some p.1 ∧ p.2 = a) l keyed →
      keyed.map Prod.snd = l ∧ ∀ p ∈ keyed, strToInt (keyStr p.2) = some p.1 := by
  intro l keyed h
  induction h with
  | nil => exact ⟨rfl, fun p hp => absurd hp (List.not_mem_nil p)⟩
  | cons hr _ ih =>
    refine ⟨by simp [ih.1, hr.2], ?_⟩
    intro p hp
    rcases List.mem_cons.mp hp with heq | htail
    · subst heq; rw [hr.2]; exact hr.1
    · exact ih.2 p htail

theorem sortByIntKey_ok {α : Type} (keyStr : α → String) (l es : List α)
    (h : sortByIntKey keyStr l = Except.ok es) :
    es.Perm l ∧ List.Pairwise (numAsc keyStr) es := by
  unfold sortByIntKey at h
  cases hm : mapE (fun a =>
      match strToInt (keyStr a) with
      | some k => Except.ok ((k, a) : Int × α)
      | none => Except.error "invalid literal for int()") l with
  | error e => rw [hm] at h; exact absurd h (by simp)
  | ok keyed =>
    rw [hm] at h
    simp only [Except.ok.injEq] at h
    subst h
    have hf₂ := mapE_ok_forall₂ hm
    have hkey : List.Forall₂ (fun a p => strToInt (keyStr a) = some p.1 ∧ p.2 = a) l keyed := by
      refine hf₂.imp ?_
      intro a p hp
      cases hk : strToInt (keyStr a) with
      | none => rw [hk] at hp; exact absurd hp (by simp)
      | some k =>
        rw [hk] at hp
        simp only [Except.ok.injEq] at hp
        subst hp
        exact ⟨rfl, rfl⟩
    obtain ⟨hsnd, hmemkey⟩ := forall₂_key_snd hkey
    have hperm : (List.insertionSort keyLe keyed).map Prod.snd |>.Perm l := by
      rw [← hsnd]
      exact (List.perm_insertionSort keyLe keyed).map Prod.snd
    refine ⟨hperm, ?_⟩
    have hsorted : List.Pairwise keyLe (List.insertionSort keyLe keyed) :=
      List.sorted_insertionSort keyLe keyed
    have hmemsorted : ∀ p ∈ List.insertionSort keyLe keyed, strToInt (keyStr p.2) = some p.1 := by
      intro p hp
      exact hmemkey p ((List.perm_insertionSort keyLe keyed).mem_iff.mp hp)
    rw [List.pairwise_map]
    refine List.Pairwise.imp_of_mem ?_ hsorted
    intro p q hp hq hle ka kb hka hkb
    have h1 := hmemsorted p hp
    have h2 := hmemsorted q hq
    rw [h1] at hka
    rw [h2] at hkb
    cases hka
    cases hkb
    exact hle

theorem listMin_eq_none_iff (l : List String) : listMin l = none ↔ l = [] := by
  cases l <;> simp [listMin]

theorem charsLt_irrefl : ∀ l : List Char, charsLt l l = false
  | [] => rfl
  | a :: as => by
    simp only [charsLt]
    rw [if_neg (lt_irrefl a), if_neg (lt_irrefl a)]
    exact charsLt_irrefl as

theorem charsLt_asymm : ∀ l1 l2, charsLt l1 l2 = true → charsLt l2 l1 = false
  | [], [], h => by simp [charsLt] at h
  | [], _ :: _, _ => rfl
  | _ :: _, [], h => by simp [charsLt] at h
  | a :: as, b :: bs, h => by
    simp only [charsLt] at h ⊢
    by_cases hab : a < b
    · rw [if_neg (lt_asymm hab), if_pos hab]
    · rw [if_neg hab] at h
      by_cases hba : b < a
      · rw [if_pos hba] at h; exact absurd h (by simp)
      · rw [if_neg hba] at h
        rw [if_neg hba, if_neg hab]
        exact charsLt_asymm as bs h

theorem charsLt_false_trans :
    ∀ l1 l2 l3, charsLt l2 l1 = false → charsLt l3 l2 = false → charsLt l3 l1 = false
  | [], _, l3, _, _ => by cases l3 <;> rfl
  | _ :: _, [], _, h1, _ => by simp [charsLt] at h1
  | _ :: _, _ :: _, [], _, h2 => by simp [charsLt] at h2
  | a :: as, b :: bs, c :: cs, h1, h2 => by
    simp only [charsLt] at h1 h2 ⊢
    by_cases hba : b < a
    · rw [if_pos hba] at h1; exact absurd h1 (by simp)
    · rw [if_neg hba] at h1
      by_cases hcb : c < b
      · rw [if_pos hcb] at h2; exact absurd h2 (by simp)
      · rw [if_neg hcb] at h2
        by_cases hca : c < a
        · exact absurd hca (not_lt.mpr (le_trans (not_lt.mp hba) (not_lt.mp hcb)))
        · rw [if_neg hca]
          by_cases hac : a < c
          · rw [if_pos hac]
          · rw [if_neg hac]
            by_cases hab : a < b
            · exact absurd (lt_of_lt_of_le hab (not_lt.mp hcb)) hac
            · rw [if_neg hab] at h1
              by_cases hbc : b < c
              · exact absurd (lt_of_le_of_lt (not_lt.mp hba) hbc) hac
              · rw [if_neg hbc] at h2
                exact charsLt_false_trans as bs cs h1 h2

theorem pyStrLe_refl (a : String) : pyStrLe a a = true := by
  simp [pyStrLe, pyStrLt, charsLt_irrefl]

theorem pyStrLt_false_of_le {a b : String} (h : pyStrLe a b = true) : pyStrLt b a = false := by
  simp only [pyStrLe, Bool.not_eq_eq_eq_not, Bool.not_true] at h
  exact h

theorem pyStrLe_of_lt_false {a b : String} (h : pyStrLt b a = false) : pyStrLe a b = true := by
  simp [pyStrLe, h]

theorem pyStrLe_trans {a b c : String} (h1 : pyStrLe a b = true) (h2 : pyStrLe b c = true) :
    pyStrLe a c = true := by
  refine pyStrLe_of_lt_false ?_
  exact charsLt_false_trans a.data b.data c.data (pyStrLt_false_of_le h1) (pyStrLt_false_of_le h2)

theorem pyStrLt_le {a b : String} (h : pyStrLt a b = true) : pyStrLe a b = true :=
  pyStrLe_of_lt_false (charsLt_asymm a.data b.data h)

theorem pyStrLe_total (a b : String) : pyStrLe a b = true ∨ pyStrLe b a = true := by
  cases hv : pyStrLt b a with
  | false => exact Or.inl (pyStrLe_of_lt_false hv)
  | true => exact Or.inr (pyStrLt_le hv)

theorem foldl_min_spec :
    ∀ (xs : List String) (x : String),
      (xs.foldl (fun a b => if pyStrLt b a then b else a) x = x ∨
        xs.foldl (fun a b => if pyStrLt b a then b else a) x ∈ xs) ∧
      pyStrLe (xs.foldl (fun a b => if pyStrLt b a then b else a) x) x = true ∧
      ∀ y ∈ xs, pyStrLe (xs.foldl (fun a b => if pyStrLt b a then b else a) x) y = true := by
  intro xs
  induction xs with
  | nil => intro x; exact ⟨Or.inl rfl, pyStrLe_refl x, fun y hy => absurd hy (List.not_mem_nil y)⟩
  | cons b bs ih =>
    intro x
    simp only [List.foldl_cons]
    obtain ⟨hmem, hle, hall⟩ := ih (if pyStrLt b x then b else x)
    by_cases hbx : pyStrLt b x = true
    · rw [if_pos hbx] at hmem hle hall ⊢
      refine ⟨?_, pyStrLe_trans hle (pyStrLt_le hbx), ?_⟩
      · rcases hmem with heq | hin
        · rw [heq]; exact Or.inr (List.mem_cons_self b bs)
        · exact Or.inr (List.mem_cons_of_mem _ hin)
      · intro y hy
        rcases List.mem_cons.mp hy with heq | htail
        · rw [heq]; exact hle
        · exact hall y htail
    · rw [if_neg hbx] at hmem hle hall ⊢
      refine ⟨?_, hle, ?_⟩
      · rcases hmem with heq | hin
        · exact Or.inl heq
        · exact Or.inr (List.mem_cons_of_mem _ hin)
      · intro y hy
        rcases List.mem_cons.mp hy with heq | htail
        · rw [heq]
          refine pyStrLe_trans hle (pyStrLe_of_lt_false ?_)
          cases hv : pyStrLt b x with
          | false => rfl
          | true => exact absurd hv hbx
        · exact hall y htail

theorem listMin_spec (l : List String) (m : String) (h : listMin l = some m) :
    m ∈ l ∧ ∀ x ∈ l, pyStrLe m x = true := by
  cases l with
  | nil => exact absurd h (by simp [listMin])
  | cons x xs =>
    simp only [listMin, Option.some.injEq] at h
    subst h
    obtain ⟨hmem, hle, hall⟩ := foldl_min_spec xs x
    constructor
    · rcases hmem with heq | hin
      · rw [heq]; exact List.mem_cons_self x xs
      · exact List.mem_cons_of_mem _ hin
    · intro y hy
      rcases List.mem_cons.mp hy with heq | htail
      · rw [heq]; exact hle
      · exact hall y htail

/-! ## Inversion lemmas for the transformer -/

theorem transform_term_ok {rootId : String} {pn : Option String} {e : TermDirEntry} {t : Term}
    (h : transform_term rootId pn e = Except.ok t) :
    ∃ traw files sfiles,
      e.termJson = some traw ∧ e.txDir = some files ∧
      sortByIntKey TxFileEntry.suffix files = Except.ok sfiles ∧
      t = { startTime := traw.start, endTime := traw.stop,
            transactions := sfiles.map (fun f => transform_tx rootId pn f.raw) } := by
  unfold transform_term at h
  split at h
  · exact absurd h (by simp)
  next traw htj =>
    split at h
    · exact absurd h (by simp)
    next files htx =>
      split at h
      next err hs => exact absurd h (by simp)
      next sfiles hs =>
        simp only [Except.ok.injEq] at h
        exact ⟨traw, files, sfiles, htj, htx, hs, h.symm⟩

theorem transform_policy_ok {rootId : String} {pd : PolicyDir} {doc : PolicyDoc}
    (h : transform_policy rootId pd = Except.ok doc) :
    ∃ raw entries sentries terms,
      pd.policyJson = some raw ∧ pd.termsDir = some entries ∧
      sortByIntKey TermDirEntry.name entries = Except.ok sentries ∧
      mapE (transform_term rootId raw.productName)
        (sentries.filter (fun e => e.isDir)) = Except.ok terms ∧
      doc = { id := "policy_" ++ raw.id
              productName := raw.productName
              timezone := raw.timezone
              currency := raw.currency
              billingLevel := "inherit"
              durationBasis := "months"
              createdAt := listMin (collectCreated terms)
              terms := terms } := by
  unfold transform_policy at h
  split at h
  · exact absurd h (by simp)
  next raw hpj =>
    split at h
    · exact absurd h (by simp)
    next entries htd =>
      split at h
      next err hs => exact absurd h (by simp)
      next sentries hs =>
        split at h
        next err hm => exact absurd h (by simp)
        next terms hm =>
          simp only [Except.ok.injEq] at h
          exact ⟨raw, entries, sentries, terms, hpj, htd, hs, hm, h.symm⟩

/-- Every transaction of a transformed policy document is the image of some
raw transaction under transform_tx with the policy's own root id and its
output productName. -/
theorem transform_policy_tx_shape {rootId : String} {pd : PolicyDir} {doc : PolicyDoc}
    (h : transform_policy rootId pd = Except.ok doc) :
    ∀ t ∈ doc.terms, ∀ tx ∈ t.transactions,
      ∃ tr : TxRaw, tx = transform_tx rootId doc.productName tr := by
  obtain ⟨raw, entries, sentries, terms, _, _, _, hm, hdoc⟩ := transform_policy_ok h
  subst hdoc
  intro t ht tx htx
  obtain ⟨e, _, he⟩ := forall₂_mem_right (mapE_ok_forall₂ hm) t ht
  obtain ⟨traw, files, sfiles, _, _, _, hteq⟩ := transform_term_ok he
  subst hteq
  simp only [List.mem_map] at htx
  obtain ⟨f, _, hf⟩ := htx
  exact ⟨f.raw, hf.symm⟩

/-! ## Claim C7: segment type classification -/

/-- C7: for every transaction processed by the transformer, the emitted
segmentType is "gap" exactly when the transaction's type field equals
"cancellation", and is "coverage" in every other case, including when the
type is empty or absent. -/
theorem claim_C7 {rootId : String} {pd : PolicyDir} {doc : PolicyDoc}
    (h : transform_policy rootId pd = Except.ok doc) :
    ∀ t ∈ doc.terms, ∀ tx ∈ t.transactions,
      (tx.segment.segmentType = "gap" ↔ tx.transactionType = some "cancellation") ∧
      (tx.transactionType ≠ some "cancellation" → tx.segment.segmentType = "coverage") := by
  intro t ht tx htx
  obtain ⟨tr, htr⟩ := transform_policy_tx_shape h t ht tx htx
  subst htr
  simp only [transform_tx, segType]
  by_cases hc : tr.type = some "cancellation"
  · rw [if_pos hc]
    exact ⟨⟨fun _ => hc, fun _ => rfl⟩, fun hn => absurd hc hn⟩
  · rw [if_neg hc]
    exact ⟨⟨fun hg => absurd hg (by decide), fun hcc => absurd hcc hc⟩, fun _ => rfl⟩

def pdC7 : PolicyDir :=
  { policyJson := some { id := "7", productName := some "prod", timezone := none, currency := none }
    termsDir := some
      [ { name := "1"
          isDir := true
          termJson := some { start := none, stop := none }
          txDir := some
            [ { suffix := "1"
                raw := { created := none, issued := none, start := none, type := some "cancellation" } },
              { suffix := "2"
                raw := { created := none, issued := none, start := none, type := some "" } },
              { suffix := "3"
                raw := { created := none, issued := none, start := none, type := none } } ] } ] }

def docC7 : PolicyDoc :=
  { id := "policy_7", productName := some "prod", timezone := none, currency := none
    billingLevel := "inherit", durationBasis := "months", createdAt := none
    terms :=
      [ { startTime := none, endTime := none
          transactions :=
            [ { transactionType := some "cancellation", createdAt := none, issuedTime := none
                segment := { rootElement := { id := "r7", elementType := some "prod" }
                             segmentType := "gap", startTime := none } },
              { transactionType := some "", createdAt := none, issuedTime := none
                segment := { rootElement := { id := "r7", elementType := some "prod" }
                             segmentType := "coverage", startTime := none } },
              { transactionType := none, createdAt := none, issuedTime := none
                segment := { rootElement := { id := "r7", elementType := some "prod" }
                             segmentType := "coverage", startTime := none } } ] } ] }

theorem claim_C7_witness :
    transform_policy "r7" pdC7 = Except.ok docC7 ∧
    (∀ t ∈ docC7.terms, ∀ tx ∈ t.transactions,
      (tx.segment.segmentType = "gap" ↔ tx.transactionType = some "cancellation") ∧
      (tx.transactionType ≠ some "cancellation" → tx.segment.segmentType = "coverage")) ∧
    (docC7.terms.flatMap (fun t => t.transactions.map (fun tx => tx.segment.segmentType))) =
      ["gap", "coverage", "coverage"] :=
  ⟨by decide, @claim_C7 "r7" pdC7 docC7 (by decide), by decide⟩

/-! ## Claim C4 (corrected): policy createdAt aggregation -/

def pdC4 : PolicyDir :=
  { policyJson := some { id := "4", productName := none, timezone := none, currency := none }
    termsDir := some
      [ { name := "1"
          isDir := true
          termJson := some { start := none, stop := none }
          txDir := some
            [ { suffix := "1"
                raw := { created := some "", issued := none, start := none, type := none } } ] } ] }

/-- C4 counterexample: a transaction that carries createdAt equal to the
empty string is excluded by the truthiness test of the source, so the policy
createdAt is none even though the minimum of the carried createdAt values is
the empty string. -/
def docC4 : PolicyDoc :=
  { id := "policy_4", productName := none, timezone := none, currency := none
    billingLevel := "inherit", durationBasis := "months", createdAt := none
    terms :=
      [ { startTime := none, endTime := none
          transactions :=
            [ { transactionType := none, createdAt := some "", issuedTime := none
                segment := { rootElement := { id := "r4", elementType := none }
                             segmentType := "coverage", startTime := none } } ] } ] }

theorem claim_C4_cex :
    transform_policy "r4" pdC4 = Except.ok docC4 ∧
    docC4.terms.flatMap (fun t => t.transactions.filterMap Transaction.createdAt) = [""] ∧
    docC4.createdAt = none ∧
    listMin [""] = some "" :=
  ⟨by decide, by decide, by decide, by decide⟩

/-- C4 as amended: the policy createdAt equals the minimum of the truthy
(present and non-empty) createdAt values of its transactions across all
terms, and is none exactly when no transaction carries a truthy createdAt. -/
theorem claim_C4 {rootId : String} {pd : PolicyDir} {doc : PolicyDoc}
    (h : transform_policy rootId pd = Except.ok doc) :
    doc.createdAt = listMin (collectCreated doc.terms) ∧
    (doc.createdAt = none ↔ collectCreated doc.terms = []) ∧
    (∀ m, doc.createdAt = some m →
      m ∈ collectCreated doc.terms ∧ ∀ c ∈ collectCreated doc.terms, pyStrLe m c = true) := by
  obtain ⟨raw, entries, sentries, terms, _, _, _, _, hdoc⟩ := transform_policy_ok h
  subst hdoc
  refine ⟨rfl, listMin_eq_none_iff (collectCreated terms), ?_⟩
  intro m hm
  exact listMin_spec _ m hm

def pdC4w : PolicyDir :=
  { policyJson := some { id := "4w", productName := none, timezone := none, currency := none }
    termsDir := some
      [ { name := "1"
          isDir := true
          termJson := some { start := none, stop := none }
          txDir := some
            [ { suffix := "1"
                raw := { created := some "2021-01-01", issued := none, start := none, type := none } },
              { suffix := "2"
                raw := { created := some "2019-05-05", issued := none, start := none, type := none } } ] },
        { name := "2"
          isDir := true
          termJson := some { start := none, stop := none }
          txDir := some
            [ { suffix := "1"
                raw := { created := some "2020-03-03", issued := none, start := none, type := none } } ] } ] }

def docC4w : PolicyDoc :=
  { id := "policy_4w", productName := none, timezone := none, currency := none
    billingLevel := "inherit", durationBasis := "months", createdAt := some "2019-05-05"
    terms :=
      [ { startTime := none, endTime := none
          transactions :=
            [ { transactionType := none, createdAt := some "2021-01-01", issuedTime := none
                segment := { rootElement := { id := "w4", elementType := none }
                             segmentType := "coverage", startTime := none } },
              { transactionType := none, createdAt := some "2019-05-05", issuedTime := none
                segment := { rootElement := { id := "w4", elementType := none }
                             segmentType := "coverage", startTime := none } } ] },
        { startTime := none, endTime := none
          transactions :=
            [ { transactionType := none, createdAt := some "2020-03-03", issuedTime := none
                segment := { rootElement := { id := "w4", elementType := none }
                             segmentType := "coverage", startTime := none } } ] } ] }

theorem claim_C4_witness :
    transform_policy "w4" pdC4w = Except.ok docC4w ∧
    (docC4w.createdAt = listMin (collectCreated docC4w.terms) ∧
      (docC4w.createdAt = none ↔ collectCreated docC4w.terms = []) ∧
      (∀ m, docC4w.createdAt = some m →
        m ∈ collectCreated docC4w.terms ∧ ∀ c ∈ collectCreated docC4w.terms, pyStrLe m c = true)) ∧
    docC4w.createdAt = some "2019-05-05" :=
  ⟨by decide, @claim_C4 "w4" pdC4w docC4w (by decide), by decide⟩

/-! ## Claim C5: numeric ordering of terms and transactions -/

/-- C5: in every transformed policy the terms appear in ascending order of
the integer value of their source directory names, and within each term the
transactions appear in ascending order of the integer value of their source
file suffix, regardless of lexical order: the output terms are, in order, the
images of a permutation of the actual term directory entries sorted ascending
by numeric name, and each term's transactions are the images of a permutation
of that entry's actual transaction files sorted ascending by numeric suffix. -/
theorem claim_C5 {rootId : String} {pd : PolicyDir} {doc : PolicyDoc}
    (h : transform_policy rootId pd = Except.ok doc) :
    ∃ pn entries es,
      pn = doc.productName ∧
      pd.termsDir = some entries ∧
      es.Perm (entries.filter (fun e => e.isDir)) ∧
      List.Pairwise (numAsc TermDirEntry.name) es ∧
      List.Forall₂ (fun e t => transform_term rootId pn e = Except.ok t) es doc.terms ∧
      ∀ e t, e ∈ es → transform_term rootId pn e = Except.ok t →
        ∃ files fs, e.txDir = some files ∧ fs.Perm files ∧
          List.Pairwise (numAsc TxFileEntry.suffix) fs ∧
          t.transactions = fs.map (fun f => transform_tx rootId pn f.raw) := by
  obtain ⟨raw, entries, sentries, terms, _, htd, hs, hm, hdoc⟩ := transform_policy_ok h
  subst hdoc
  refine ⟨raw.productName, entries, sentries.filter (fun e => e.isDir), rfl, htd,
    ?_, ?_, mapE_ok_forall₂ hm, ?_⟩
  · exact List.Perm.filter _ (sortByIntKey_ok _ entries sentries hs).1
  · exact List.Pairwise.sublist (List.filter_sublist sentries)
      (sortByIntKey_ok _ entries sentries hs).2
  · intro e t _ he
    obtain ⟨traw, files, sfiles, _, htx, hsf, hteq⟩ := transform_term_ok he
    subst hteq
    exact ⟨files, sfiles, htx, (sortByIntKey_ok _ files sfiles hsf).1, 
      (sortByIntKey_ok _ files sfiles hsf).2, rfl⟩

def pdC5 : PolicyDir :=
  { policyJson := some { id := "5", productName := some "auto", timezone := none, currency := none }
    termsDir := some
      [ { name := "10"
          isDir := true
          termJson := some { start := some "start-of-term-10", stop := none }
          txDir := some
            [ { suffix := "10"
                raw := { created := none, issued := none, start := some "tx-10", type := none } },
              { suffix := "2"
                raw := { created := none, issued := none, start := some "tx-2", type := none } } ] },
        { name := "2"
          isDir := true
          termJson := some { start := some "start-of-term-2", stop := none }
          txDir := some [] } ] }

def docC5 : PolicyDoc :=
  { id := "policy_5", productName := some "auto", timezone := none, currency := none
    billingLevel := "inherit", durationBasis := "months", createdAt := none
    terms :=
      [ { startTime := some "start-of-term-2", endTime := none, transactions := [] },
        { startTime := some "start-of-term-10", endTime := none
          transactions :=
            [ { transactionType := none, createdAt := none, issuedTime := none
                segment := { rootElement := { id := "r5", elementType := some "auto" }
                             segmentType := "coverage", startTime := some "tx-2" } },
              { transactionType := none, createdAt := none, issuedTime := none
                segment := { rootElement := { id := "r5", elementType := some "auto" }
                             segmentType := "coverage", startTime := some "tx-10" } } ] } ] }

theorem claim_C5_witness :
    transform_policy "r5" pdC5 = Except.ok docC5 ∧
    (∃ pn entries es,
      pn = docC5.productName ∧
      pdC5.termsDir = some entries ∧
      es.Perm (entries.filter (fun e => e.isDir)) ∧
      List.Pairwise (numAsc TermDirEntry.name) es ∧
      List.Forall₂ (fun e t => transform_term "r5" pn e = Except.ok t) es docC5.terms ∧
      ∀ e t, e ∈ es → transform_term "r5" pn e = Except.ok t →
        ∃ files fs, e.txDir = some files ∧ fs.Perm files ∧
          List.Pairwise (numAsc TxFileEntry.suffix) fs ∧
          t.transactions = fs.map (fun f => transform_tx "r5" pn f.raw)) ∧
    docC5.terms.map Term.startTime = [some "start-of-term-2", some "start-of-term-10"] ∧
    (docC5.terms.flatMap (fun t => t.transactions.map (fun tx => tx.segment.startTime))) =
      [some "tx-2", some "tx-10"] :=
  ⟨by decide, @claim_C5 "r5" pdC5 docC5 (by decide), by decide, by decide⟩

/-! ## Claim C2: one root element identity per policy, distinct across a run -/

/-- All segments of a policy document carry root id r and the policy's own
productName as elementType. -/
def SegRoot (p : PolicyDoc) (r : String) : Prop :=
  ∀ t ∈ p.terms, ∀ tx ∈ t.transactions,
    tx.segment.rootElement.id = r ∧ tx.segment.rootElement.elementType = p.productName

theorem transform_policy_segRoot {r : String} {pd : PolicyDir} {doc : PolicyDoc}
    (h : transform_policy r pd = Except.ok doc) : SegRoot doc r := by
  intro t ht tx htx
  obtain ⟨tr, htr⟩ := transform_policy_tx_shape h t ht tx htx
  subst htr
  exact ⟨rfl, rfl⟩

theorem forall₂_mem_left {α β : Type} {R : α → β → Prop} :
    ∀ {l : List α} {l' : List β}, List.Forall₂ R l l' → ∀ a ∈ l, ∃ b ∈ l', R a b := by
  intro l l' h
  induction h with
  | nil => intro a ha; exact absurd ha (List.not_mem_nil a)
  | cons hr _ ih =>
    intro a ha
    rcases List.mem_cons.mp ha with heq | htail
    · subst heq; exact ⟨_, List.mem_cons_self _ _, hr⟩
    · obtain ⟨b, hb, hab⟩ := ih a htail
      exact ⟨b, List.mem_cons_of_mem _ hb, hab⟩

theorem accPol_counter_le (gen : Nat → String) (pdirs : List (String × PolicyDir)) :
    ∀ (prefs : List String) (k : Nat),
      k ≤ (transform_accountPolicies gen pdirs prefs k).2 := by
  intro prefs
  induction prefs with
  | nil => intro k; exact le_refl k
  | cons pref rest ih =>
    intro k
    simp only [transform_accountPolicies]
    split
    · exact ih k
    · split
      · exact ih k
      · split
        · exact Nat.le_succ k
        · split
          next e k2 heq =>
            have hthis := ih (k + 1)
            rw [heq] at hthis
            exact le_trans (Nat.le_succ k) hthis
          next docs k2 heq =>
            have hthis := ih (k + 1)
            rw [heq] at hthis
            exact le_trans (Nat.le_succ k) hthis

theorem transform_account_counter_le (gen : Nat → String) (k : Nat) (fname : String)
    (raw : AccountRaw) (pdirs : List (String × PolicyDir)) (dcb : String) :
    k ≤ (transform_account gen k fname raw pdirs dcb).2 := by
  simp only [transform_account]
  split
  · exact le_refl k
  · split
    next e k2 heq =>
      have hthis := accPol_counter_le gen pdirs raw.policies k
      rw [heq] at hthis
      exact hthis
    next pols k2 heq =>
      have hthis := accPol_counter_le gen pdirs raw.policies k
      rw [heq] at hthis
      exact hthis

theorem accPol_ok_spec (gen : Nat → String) (pdirs : List (String × PolicyDir)) :
    ∀ (prefs : List String) (k : Nat) (docs : List PolicyDoc) (k' : Nat),
      transform_accountPolicies gen pdirs prefs k = (Except.ok docs, k') →
      k ≤ k' ∧ ∃ ks : List Nat,
        List.Forall₂ (fun d m => SegRoot d (gen m)) docs ks ∧
        List.Pairwise (· < ·) ks ∧ ∀ m ∈ ks, k ≤ m ∧ m < k' := by
  intro prefs
  induction prefs with
  | nil =>
    intro k docs k' h
    simp only [transform_accountPolicies, Prod.mk.injEq, Except.ok.injEq] at h
    obtain ⟨hd, hk⟩ := h
    subst hd; subst hk
    exact ⟨le_refl k, [], List.Forall₂.nil, List.Pairwise.nil,
      fun m hm => absurd hm (List.not_mem_nil m)⟩
  | cons pref rest ih =>
    intro k docs k' h
    simp only [transform_accountPolicies] at h
    split at h
    · exact ih k docs k' h
    · split at h
      · exact ih k docs k' h
      · split at h
        · simp at h
        next doc hpol =>
          split at h
          next e k2 hrec => simp at h
          next docs2 k2 hrec =>
            simp only [Prod.mk.injEq, Except.ok.injEq] at h
            obtain ⟨hd, hk⟩ := h
            subst hd; subst hk
            obtain ⟨hk2, ks2, hf2, hpw2, hbound2⟩ := ih (k + 1) docs2 k2 hrec
            refine ⟨le_trans (Nat.le_succ k) hk2, k :: ks2, ?_, ?_, ?_⟩
            · exact List.Forall₂.cons (transform_policy_segRoot hpol) hf2
            · refine List.Pairwise.cons ?_ hpw2
              intro m hm
              exact lt_of_lt_of_le (Nat.lt_succ_self k) (hbound2 m hm).1
            · intro m hm
              rcases List.mem_cons.mp hm with heq | htail
              · subst heq
                exact ⟨le_refl m, lt_of_lt_of_le (Nat.lt_succ_self m) hk2⟩
              · obtain ⟨h1, h2⟩ := hbound2 m htail
                exact ⟨le_trans (Nat.le_succ k) h1, h2⟩

theorem transform_account_ok_spec (gen : Nat → String) (k : Nat) (fname : String)
    (raw : AccountRaw) (pdirs : List (String × PolicyDir)) (dcb : String)
    (doc : AccountDoc) (k' : Nat)
    (h : transform_account gen k fname raw pdirs dcb = (Except.ok doc, k')) :
    k ≤ k' ∧ ∃ ks : List Nat,
      List.Forall₂ (fun d m => SegRoot d (gen m)) doc.policies ks ∧
      List.Pairwise (· < ·) ks ∧ ∀ m ∈ ks, k ≤ m ∧ m < k' := by
  simp only [transform_account] at h
  split at h
  · simp at h
  · split at h
    next e k2 hrec => simp at h
    next pols k2 hrec =>
      simp only [Prod.mk.injEq, Except.ok.injEq] at h
      obtain ⟨hd, hk⟩ := h
      subst hk
      have hspec := accPol_ok_spec gen pdirs raw.policies k pols _ hrec
      rw [← hd]
      exact hspec

theorem convert_accounts_cons_ok {gen : Nat → String} {pdirs : List (String × PolicyDir)}
    {dcb fname : String} {raw : AccountRaw} {rest : List (String × AccountRaw)}
    {k : Nat} {doc : AccountDoc} {k2 : Nat}
    (h : transform_account gen k fname raw pdirs dcb = (Except.ok doc, k2)) :
    convert_accounts gen pdirs dcb ((fname, raw) :: rest) k =
      doc :: convert_accounts gen pdirs dcb rest k2 := by
  have hstep : convert_accounts gen pdirs dcb ((fname, raw) :: rest) k =
      match transform_account gen k fname raw pdirs dcb with
      | (Except.ok doc, k') => doc :: convert_accounts gen pdirs dcb rest k'
      | (Except.error _, k') => convert_accounts gen pdirs dcb rest k' := rfl
  rw [hstep, h]

theorem convert_accounts_cons_err {gen : Nat → String} {pdirs : List (String × PolicyDir)}
    {dcb fname : String} {raw : AccountRaw} {rest : List (String × AccountRaw)}
    {k : Nat} {e : String} {k2 : Nat}
    (h : transform_account gen k fname raw pdirs dcb = (Except.error e, k2)) :
    convert_accounts gen pdirs dcb ((fname, raw) :: rest) k =
      convert_accounts gen pdirs dcb rest k2 := by
  have hstep : convert_accounts gen pdirs dcb ((fname, raw) :: rest) k =
      match transform_account gen k fname raw pdirs dcb with
      | (Except.ok doc, k') => doc :: convert_accounts gen pdirs dcb rest k'
      | (Except.error _, k') => convert_accounts gen pdirs dcb rest k' := rfl
  rw [hstep, h]

theorem convert_accounts_spec (gen : Nat → String) (pdirs : List (String × PolicyDir))
    (dcb : String) :
    ∀ (files : List (String × AccountRaw)) (k : Nat),
      ∃ kss : List (List Nat),
        List.Forall₂
          (fun doc ks =>
            List.Forall₂ (fun d m => SegRoot d (gen m)) doc.policies ks ∧
            List.Pairwise (· < ·) ks)
          (convert_accounts gen pdirs dcb files k) kss ∧
        (∀ ks ∈ kss, ∀ m ∈ ks, k ≤ m) ∧
        List.Pairwise (fun ks1 ks2 => ∀ m1 ∈ ks1, ∀ m2 ∈ ks2, m1 < m2) kss := by
  intro files
  induction files with
  | nil =>
    intro k
    exact ⟨[], List.Forall₂.nil, fun ks hks => absurd hks (List.not_mem_nil ks),
      List.Pairwise.nil⟩
  | cons fr rest ih =>
    intro k
    obtain ⟨fname, raw⟩ := fr
    have hk2 : k ≤ (transform_account gen k fname raw pdirs dcb).2 :=
      transform_account_counter_le gen k fname raw pdirs dcb
    cases hres : (transform_account gen k fname raw pdirs dcb).1 with
    | error e =>
      have hfull : transform_account gen k fname raw pdirs dcb =
          (Except.error e, (transform_account gen k fname raw pdirs dcb).2) := by
        rw [← hres]
      rw [convert_accounts_cons_err hfull]
      obtain ⟨kss, hf, hbound, hpw⟩ := ih ((transform_account gen k fname raw pdirs dcb).2)
      exact ⟨kss, hf, fun ks hks m hm => le_trans hk2 (hbound ks hks m hm), hpw⟩
    | ok doc =>
      have hfull : transform_account gen k fname raw pdirs dcb =
          (Except.ok doc, (transform_account gen k fname raw pdirs dcb).2) := by
        rw [← hres]
      rw [convert_accounts_cons_ok hfull]
      obtain ⟨_, ks, hks, hkspw, hksbound⟩ :=
        transform_account_ok_spec gen k fname raw pdirs dcb doc _ hfull
      obtain ⟨kss, hf, hbound, hpw⟩ := ih ((transform_account gen k fname raw pdirs dcb).2)
      refine ⟨ks :: kss, List.Forall₂.cons ⟨hks, hkspw⟩ hf, ?_, ?_⟩
      · intro ks0 hks0 m hm
        rcases List.mem_cons.mp hks0 with heq | htail
        · subst heq; exact (hksbound m hm).1
        · exact le_trans hk2 (hbound ks0 htail m hm)
      · refine List.Pairwise.cons ?_ hpw
        intro ks2 hks2 m1 hm1 m2 hm2
        exact lt_of_lt_of_le (hksbound m1 hm1).2 (hbound ks2 hks2 m2 hm2)

/-- C2: every segment of a transformed policy carries one and the same
rootElement id whose elementType is the policy's productName, and - assuming
the uuid generator never repeats (injectivity) - any two policies at distinct
positions of one converter run have different rootElement ids on all of
their segments. -/
theorem claim_C2 (gen : Nat → String) (hinj : Function.Injective gen)
    (tree : SourceTree) (dcb : String) (out : List AccountDoc)
    (h : convert_main gen tree dcb = some out) :
    (∀ acct ∈ out, ∀ p ∈ acct.policies,
      (∀ t ∈ p.terms, ∀ tx ∈ t.transactions,
        tx.segment.rootElement.elementType = p.productName) ∧
      (∀ t ∈ p.terms, ∀ tx ∈ t.transactions, ∀ t' ∈ p.terms, ∀ tx' ∈ t'.transactions,
        tx.segment.rootElement.id = tx'.segment.rootElement.id)) ∧
    (∀ (i1 i2 : Fin out.length)
        (j1 : Fin (out.get i1).policies.length) (j2 : Fin (out.get i2).policies.length),
      (i1.val, j1.val) ≠ (i2.val, j2.val) →
      ∀ t1 ∈ ((out.get i1).policies.get j1).terms, ∀ tx1 ∈ t1.transactions,
      ∀ t2 ∈ ((out.get i2).policies.get j2).terms, ∀ tx2 ∈ t2.transactions,
        tx1.segment.rootElement.id ≠ tx2.segment.rootElement.id) := by
  have hout : ∃ pdirs listing, tree.accounts = some listing ∧ tree.policies = some pdirs ∧
      out = convert_accounts gen pdirs dcb (accountFiles listing) 0 := by
    unfold convert_main at h
    split at h
    · exact absurd h (by simp)
    next listing hacc =>
      split at h
      · exact absurd h (by simp)
      next pdirs hpol =>
        simp only [Option.some.injEq] at h
        exact ⟨pdirs, listing, hacc, hpol, h.symm⟩
  obtain ⟨pdirs, listing, _, _, hout⟩ := hout
  obtain ⟨kss, hf, _, hpw⟩ := convert_accounts_spec gen pdirs dcb (accountFiles listing) 0
  rw [← hout] at hf
  constructor
  · intro acct hacct p hp
    obtain ⟨ks, _, hks, _⟩ := forall₂_mem_left hf acct hacct
    obtain ⟨m, _, hm⟩ := forall₂_mem_left hks p hp
    refine ⟨fun t ht tx htx => (hm t ht tx htx).2, ?_⟩
    intro t ht tx htx t' ht' tx' htx'
    rw [(hm t ht tx htx).1, (hm t' ht' tx' htx').1]
  · intro i1 i2 j1 j2 hne t1 ht1 tx1 htx1 t2 ht2 tx2 htx2
    have hlen : out.length = kss.length := hf.length_eq
    have hget := (List.forall₂_iff_get.mp hf).2
    have h1 := hget i1.val i1.isLt (hlen ▸ i1.isLt)
    have h2 := hget i2.val i2.isLt (hlen ▸ i2.isLt)
    have hlen1 := h1.1.length_eq
    have hlen2 := h2.1.length_eq
    have hm1 := (List.forall₂_iff_get.mp h1.1).2 j1.val j1.isLt (hlen1 ▸ j1.isLt)
    have hm2 := (List.forall₂_iff_get.mp h2.1).2 j2.val j2.isLt (hlen2 ▸ j2.isLt)
    have hid1 := (hm1 t1 ht1 tx1 htx1).1
    have hid2 := (hm2 t2 ht2 tx2 htx2).1
    intro heq
    rw [hid1, hid2] at heq
    have hM := hinj heq
    by_cases hii : i1 = i2
    · subst hii
      have hjj : j1.val ≠ j2.val := by
        intro hj
        exact hne (by rw [hj])
      have hpwin := List.pairwise_iff_get.mp h1.2
      rcases Nat.lt_or_ge j1.val j2.val with hlt | hge
      · have hlt2 := hpwin ⟨j1.val, hlen1 ▸ j1.isLt⟩ ⟨j2.val, hlen2 ▸ j2.isLt⟩ hlt
        exact absurd hM (ne_of_lt hlt2)
      · have hlt' : j2.val < j1.val := lt_of_le_of_ne hge (Ne.symm ?_)
        · have hlt2 := hpwin ⟨j2.val, hlen2 ▸ j2.isLt⟩ ⟨j1.val, hlen1 ▸ j1.isLt⟩ hlt'
          exact absurd hM.symm (ne_of_lt hlt2)
        · exact hjj
    · have hiv : i1.val ≠ i2.val := fun hv => hii (Fin.ext hv)
      have hpwget := List.pairwise_iff_get.mp hpw
      rcases Nat.lt_or_ge i1.val i2.val with hlt | hge
      · have hcross := hpwget ⟨i1.val, hlen ▸ i1.isLt⟩ ⟨i2.val, hlen ▸ i2.isLt⟩ hlt
          ((kss.get ⟨i1.val, hlen ▸ i1.isLt⟩).get ⟨j1.val, hlen1 ▸ j1.isLt⟩)
          (List.get_mem _ _ _)
          ((kss.get ⟨i2.val, hlen ▸ i2.isLt⟩).get ⟨j2.val, hlen2 ▸ j2.isLt⟩)
          (List.get_mem _ _ _)
        exact absurd hM (ne_of_lt hcross)
      · have hlt' : i2.val < i1.val := lt_of_le_of_ne hge (Ne.symm hiv)
        have hcross := hpwget ⟨i2.val, hlen ▸ i2.isLt⟩ ⟨i1.val, hlen ▸ i1.isLt⟩ hlt'
          ((kss.get ⟨i2.val, hlen ▸ i2.isLt⟩).get ⟨j2.val, hlen2 ▸ j2.isLt⟩)
          (List.get_mem _ _ _)
          ((kss.get ⟨i1.val, hlen ▸ i1.isLt⟩).get ⟨j1.val, hlen1 ▸ j1.isLt⟩)
          (List.get_mem _ _ _)
        exact absurd hM.symm (ne_of_lt hcross)

def genW : Nat → String := fun n => String.mk (List.replicate n 'x')

theorem genW_inj : Function.Injective genW := by
  intro a b hab
  have hlen := congrArg (fun s => s.data.length) hab
  simpa [genW] using hlen

def pdW1 : PolicyDir :=
  { policyJson := some { id := "1", productName := some "prodA", timezone := none, currency := none }
    termsDir := some
      [ { name := "1", isDir := true, termJson := some { start := none, stop := none }
          txDir := some
            [ { suffix := "1"
                raw := { created := none, issued := none, start := none, type := none } } ] } ] }

def pdW2 : PolicyDir :=
  { policyJson := some { id := "2", productName := some "prodB", timezone := none, currency := none }
    termsDir := some
      [ { name := "1", isDir := true, termJson := some { start := none, stop := none }
          txDir := some
            [ { suffix := "1"
                raw := { created := none, issued := none, start := none, type := none } } ] } ] }

def treeW : SourceTree :=
  { accounts := some
      [ ("account-a.json",
          { type := none, fields := none, billing := none, created := none
            policies := ["policy-1"] }),
        ("account-b.json",
          { type := none, fields := none, billing := none, created := none
            policies := ["policy-2"] }) ]
    policies := some [ ("policy-1", pdW1), ("policy-2", pdW2) ] }

def outPolW (rid pid pn : String) : PolicyDoc :=
  { id := pid, productName := some pn, timezone := none, currency := none
    billingLevel := "inherit", durationBasis := "months", createdAt := none
    terms :=
      [ { startTime := none, endTime := none
          transactions :=
            [ { transactionType := none, createdAt := none, issuedTime := none
                segment := { rootElement := { id := rid, elementType := some pn }
                             segmentType := "coverage", startTime := none } } ] } ] }

def outW : List AccountDoc :=
  [ { accountData :=
        { id := "a", accountType := none, data := [], billingLevel := none, createdAt := none }
      defaultCreatedBy := "creator"
      policies := [outPolW "" "policy_1" "prodA"] },
    { accountData :=
        { id := "b", accountType := none, data := [], billingLevel := none, createdAt := none }
      defaultCreatedBy := "creator"
      policies := [outPolW "x" "policy_2" "prodB"] } ]

theorem claim_C2_witness :
    Function.Injective genW ∧
    convert_main genW treeW "creator" = some outW ∧
    (∀ acct ∈ outW, ∀ p ∈ acct.policies,
      (∀ t ∈ p.terms, ∀ tx ∈ t.transactions,
        tx.segment.rootElement.elementType = p.productName) ∧
      (∀ t ∈ p.terms, ∀ tx ∈ t.transactions, ∀ t' ∈ p.terms, ∀ tx' ∈ t'.transactions,
        tx.segment.rootElement.id = tx'.segment.rootElement.id)) ∧
    (∀ t1 ∈ (outPolW "" "policy_1" "prodA").terms, ∀ tx1 ∈ t1.transactions,
     ∀ t2 ∈ (outPolW "x" "policy_2" "prodB").terms, ∀ tx2 ∈ t2.transactions,
      tx1.segment.rootElement.id ≠ tx2.segment.rootElement.id) :=
  ⟨genW_inj, by decide,
    (claim_C2 genW genW_inj treeW "creator" outW (by decide)).1,
    (claim_C2 genW genW_inj treeW "creator" outW (by decide)).2
      ⟨0, by decide⟩ ⟨1, by decide⟩ ⟨0, by decide⟩ ⟨0, by decide⟩ (by decide)⟩

/-! ## Claim C9: policy reference resolution -/

theorem splitCharFirst_none_iff (c : Char) :
    ∀ l : List Char, splitCharFirst c l = none ↔ c ∉ l := by
  intro l
  induction l with
  | nil => simp [splitCharFirst]
  | cons x xs ih =>
    simp only [splitCharFirst, List.mem_cons]
    by_cases hx : x = c
    · rw [if_pos hx]
      simp only [Option.some_ne_none]
      constructor
      · intro hfalse; exact absurd hfalse (by simp)
      · intro hnot; exact absurd (Or.inl hx.symm) hnot
    · rw [if_neg hx]
      constructor
      · intro hmap
        have hnone : splitCharFirst c xs = none := by
          cases hsp : splitCharFirst c xs with
          | none => rfl
          | some p => rw [hsp] at hmap; exact absurd hmap (by simp)
        intro hor
        rcases hor with heq | hmem
        · exact hx heq.symm
        · exact (ih.mp hnone) hmem
      · intro hnot
        have hnone : splitCharFirst c xs = none :=
          ih.mpr (fun hmem => hnot (Or.inr hmem))
        rw [hnone]
        rfl

theorem splitCharFirst_append (c : Char) :
    ∀ (pre suf : List Char), c ∉ pre →
      splitCharFirst c (pre ++ c :: suf) = some (pre, suf) := by
  intro pre
  induction pre with
  | nil =>
    intro suf _
    simp [splitCharFirst]
  | cons x xs ih =>
    intro suf hnot
    have hx : ¬ x = c := fun hx => hnot (hx ▸ List.mem_cons_self x xs)
    have hxs : c ∉ xs := fun hm => hnot (List.mem_cons_of_mem x hm)
    simp [splitCharFirst, if_neg hx, ih suf hxs]

/-- C9: a policy reference is skipped (resolves to nothing) exactly when it
contains no dash; for a reference with a dash, the text before the first dash
is ignored and the reference resolves to policy-<text after the first dash>,
and a reference with no dash is ignored by the policy loop. -/
theorem claim_C9 (pref : String) :
    (policyRefTarget pref = none ↔ chr45 ∉ pref.data) ∧
    (∀ pre suf : String, pref = pre ++ "-" ++ suf → chr45 ∉ pre.data →
      policyRefTarget pref = some ("policy-" ++ suf)) ∧
    (∀ (gen : Nat → String) (pdirs : List (String × PolicyDir))
        (rest : List String) (k : Nat),
      policyRefTarget pref = none →
      transform_accountPolicies gen pdirs (pref :: rest) k =
        transform_accountPolicies gen pdirs rest k) := by
  refine ⟨?_, ?_, ?_⟩
  · unfold policyRefTarget splitFirstDash
    rw [Option.map_map]
    constructor
    · intro hmap
      have hnone : splitCharFirst chr45 pref.data = none := by
        cases hsp : splitCharFirst chr45 pref.data with
        | none => rfl
        | some p => rw [hsp] at hmap; exact absurd hmap (by simp)
      exact (splitCharFirst_none_iff chr45 pref.data).mp hnone
    · intro hnot
      rw [(splitCharFirst_none_iff chr45 pref.data).mpr hnot]
      rfl
  · intro pre suf heq hnot
    have hdata : pref.data = pre.data ++ chr45 :: suf.data := by
      rw [heq, String.data_append, String.data_append]
      simp [chr45]
    unfold policyRefTarget splitFirstDash
    rw [hdata, splitCharFirst_append chr45 pre.data suf.data hnot]
    rfl
  · intro gen pdirs rest k hnone
    simp only [transform_accountPolicies, hnone]

theorem claim_C9_witness :
    policyRefTarget "nodash" = none ∧
    policyRefTarget "anything-1000" = some "policy-1000" ∧
    policyRefTarget "policy-1000" = some "policy-1000" ∧
    (∀ (gen : Nat → String) (pdirs : List (String × PolicyDir))
        (rest : List String) (k : Nat),
      transform_accountPolicies gen pdirs ("nodash" :: rest) k =
        transform_accountPolicies gen pdirs rest k) :=
  ⟨(claim_C9 "nodash").1.mpr (by decide),
   (claim_C9 "anything-1000").2.1 "anything" "1000" (by decide) (by decide),
   (claim_C9 "policy-1000").2.1 "policy" "1000" (by decide) (by decide),
   fun gen pdirs rest k =>
     (claim_C9 "nodash").2.2 gen pdirs rest k ((claim_C9 "nodash").1.mpr (by decide))⟩

/-! ## Claim C10: lexicographic account ordering -/

instance {α : Type} : IsTotal (String × α) nameLe :=
  ⟨fun a b => pyStrLe_total a.1 b.1⟩

instance {α : Type} : IsTrans (String × α) nameLe :=
  ⟨fun _ _ _ hab hbc => pyStrLe_trans hab hbc⟩

theorem accountFiles_sorted (listing : List (String × AccountRaw)) :
    List.Pairwise (fun a b : String × AccountRaw => pyStrLe a.1 b.1 = true)
      (accountFiles listing) :=
  List.sorted_insertionSort nameLe (listing.filter (fun p => matchesAccountGlob p.1))

theorem convert_main_ok {gen : Nat → String} {tree : SourceTree} {dcb : String}
    {out : List AccountDoc} (h : convert_main gen tree dcb = some out) :
    ∃ listing pdirs, tree.accounts = some listing ∧ tree.policies = some pdirs ∧
      out = convert_accounts gen pdirs dcb (accountFiles listing) 0 := by
  unfold convert_main at h
  split at h
  · exact absurd h (by simp)
  next listing hacc =>
    split at h
    · exact absurd h (by simp)
    next pdirs hpol =>
      simp only [Option.some.injEq] at h
      exact ⟨listing, pdirs, hacc, hpol, h.symm⟩

/-- The successful accounts form a subsequence of the processed files, and
the emitted records correspond to them in order. -/
theorem convert_accounts_sublist (gen : Nat → String) (pdirs : List (String × PolicyDir))
    (dcb : String) :
    ∀ (files : List (String × AccountRaw)) (k : Nat),
      ∃ sub : List (String × AccountRaw), sub.Sublist files ∧
        List.Forall₂ (fun fr doc =>
          ∃ k', (transform_account gen k' fr.1 fr.2 pdirs dcb).1 = Except.ok doc)
          sub (convert_accounts gen pdirs dcb files k) := by
  intro files
  induction files with
  | nil => intro k; exact ⟨[], List.Sublist.refl [], List.Forall₂.nil⟩
  | cons fr rest ih =>
    intro k
    obtain ⟨fname, raw⟩ := fr
    cases hres : (transform_account gen k fname raw pdirs dcb).1 with
    | error e =>
      have hfull : transform_account gen k fname raw pdirs dcb =
          (Except.error e, (transform_account gen k fname raw pdirs dcb).2) := by
        rw [← hres]
      rw [convert_accounts_cons_err hfull]
      obtain ⟨sub, hsub, hf⟩ := ih ((transform_account gen k fname raw pdirs dcb).2)
      exact ⟨sub, List.Sublist.cons (fname, raw) hsub, hf⟩
    | ok doc =>
      have hfull : transform_account gen k fname raw pdirs dcb =
          (Except.ok doc, (transform_account gen k fname raw pdirs dcb).2) := by
        rw [← hres]
      rw [convert_accounts_cons_ok hfull]
      obtain ⟨sub, hsub, hf⟩ := ih ((transform_account gen k fname raw pdirs dcb).2)
      exact ⟨(fname, raw) :: sub, List.Sublist.cons₂ (fname, raw) hsub,
        List.Forall₂.cons ⟨k, hres⟩ hf⟩

/-- C10: the converter emits account records following the lexicographic
(string) order of the matching source filenames - the processed list is the
lexicographically sorted glob result, the emitted records correspond in
order to the subsequence of it that transformed successfully - and this
order is not numeric: account-10.json sorts before account-2.json. -/
theorem claim_C10 (gen : Nat → String) (tree : SourceTree) (dcb : String)
    (out : List AccountDoc) (h : convert_main gen tree dcb = some out) :
    ∃ listing pdirs sub,
      tree.accounts = some listing ∧ tree.policies = some pdirs ∧
      List.Pairwise (fun a b : String × AccountRaw => pyStrLe a.1 b.1 = true)
        (accountFiles listing) ∧
      sub.Sublist (accountFiles listing) ∧
      List.Forall₂ (fun fr doc =>
        ∃ k, (transform_account gen k fr.1 fr.2 pdirs dcb).1 = Except.ok doc) sub out ∧
      pyStrLt "account-10.json" "account-2.json" = true := by
  obtain ⟨listing, pdirs, hacc, hpol, hout⟩ := convert_main_ok h
  obtain ⟨sub, hsub, hf⟩ := convert_accounts_sublist gen pdirs dcb (accountFiles listing) 0
  rw [← hout] at hf
  exact ⟨listing, pdirs, sub, hacc, hpol, accountFiles_sorted listing, hsub, hf, by decide⟩

def treeC10 : SourceTree :=
  { accounts := some
      [ ("account-2.json",
          { type := some "t2", fields := none, billing := none, created := none, policies := [] }),
        ("account-10.json",
          { type := some "t10", fields := none, billing := none, created := none, policies := [] }) ]
    policies := some [] }

def outC10 : List AccountDoc :=
  [ { accountData :=
        { id := "10", accountType := some "t10", data := [], billingLevel := none, createdAt := none }
      defaultCreatedBy := "dcb", policies := [] },
    { accountData :=
        { id := "2", accountType := some "t2", data := [], billingLevel := none, createdAt := none }
      defaultCreatedBy := "dcb", policies := [] } ]

theorem claim_C10_witness :
    convert_main (fun _ => "u") treeC10 "dcb" = some outC10 ∧
    outC10.map (fun a => a.accountData.id) = ["10", "2"] ∧
    (∃ listing pdirs sub,
      treeC10.accounts = some listing ∧ treeC10.policies = some pdirs ∧
      List.Pairwise (fun a b : String × AccountRaw => pyStrLe a.1 b.1 = true)
        (accountFiles listing) ∧
      sub.Sublist (accountFiles listing) ∧
      List.Forall₂ (fun fr doc =>
        ∃ k, (transform_account (fun _ => "u") k fr.1 fr.2 pdirs "dcb").1 = Except.ok doc)
        sub outC10 ∧
      pyStrLt "account-10.json" "account-2.json" = true) :=
  ⟨by decide, by decide, claim_C10 (fun _ => "u") treeC10 "dcb" outC10 (by decide)⟩

/-! ## Claim C6: a broken resolved policy skips the whole account -/

/-- The error conditions the claim describes on a resolved policy directory:
missing policy.json, missing terms directory, or a term subdirectory whose
term.json or transactions directory is missing. -/
def missingDescriptor (pd : PolicyDir) : Prop :=
  pd.policyJson = none ∨ pd.termsDir = none ∨
  (∃ entries, pd.termsDir = some entries ∧
    ∃ e ∈ entries, e.isDir = true ∧ (e.termJson = none ∨ e.txDir = none))

theorem transform_term_err {rootId : String} {pn : Option String} {e : TermDirEntry}
    (hcase : e.termJson = none ∨ e.txDir = none) :
    ∃ msg, transform_term rootId pn e = Except.error msg := by
  unfold transform_term
  cases htj : e.termJson with
  | none => exact ⟨_, rfl⟩
  | some traw =>
    rcases hcase with hc | hc
    · rw [htj] at hc; exact absurd hc (by simp)
    · rw [hc]
      exact ⟨_, rfl⟩

theorem transform_policy_err {pd : PolicyDir} (hmd : missingDescriptor pd) (r : String) :
    ∃ msg, transform_policy r pd = Except.error msg := by
  cases hres : transform_policy r pd with
  | error msg => exact ⟨msg, rfl⟩
  | ok doc =>
    exfalso
    obtain ⟨raw, entries, sentries, terms, hpj, htd, hs, hm, _⟩ := transform_policy_ok hres
    rcases hmd with h | h | ⟨entries2, hent, e, hmem, hdir, hecase⟩
    · rw [h] at hpj; exact absurd hpj (by simp)
    · rw [h] at htd; exact absurd htd (by simp)
    · rw [hent] at htd
      injection htd with htd'
      subst htd'
      have hmem' : e ∈ sentries.filter (fun x => x.isDir) := by
        refine List.mem_filter.mpr ⟨?_, hdir⟩
        exact ((sortByIntKey_ok _ entries2 sentries hs).1.mem_iff).mpr hmem
      obtain ⟨msg, hmsg⟩ := @transform_term_err r raw.productName e hecase
      obtain ⟨msg2, hmap⟩ := mapE_error_of_mem hmsg hmem'
      rw [hmap] at hm
      exact absurd hm (by simp)

theorem transform_accountPolicies_err {pdirs : List (String × PolicyDir)} {pref nm : String}
    {pd : PolicyDir} (htgt : policyRefTarget pref = some nm)
    (hdir : lookupDir pdirs nm = some pd) (hmd : missingDescriptor pd) :
    ∀ (prefs : List String), pref ∈ prefs → ∀ (gen : Nat → String) (k : Nat),
      ∃ e k', transform_accountPolicies gen pdirs prefs k = (Except.error e, k') := by
  intro prefs
  induction prefs with
  | nil => intro hmem; exact absurd hmem (List.not_mem_nil pref)
  | cons p rest ih =>
    intro hmem gen k
    rcases List.mem_cons.mp hmem with heq | htail
    · subst heq
      obtain ⟨msg, hmsg⟩ := transform_policy_err hmd (gen k)
      refine ⟨msg, k + 1, ?_⟩
      simp only [transform_accountPolicies, htgt, hdir, hmsg]
    · cases htgt' : policyRefTarget p with
      | none =>
        obtain ⟨e, k', hrec⟩ := ih htail gen k
        exact ⟨e, k', by simp only [transform_accountPolicies, htgt', hrec]⟩
      | some nm' =>
        cases hdir' : lookupDir pdirs nm' with
        | none =>
          obtain ⟨e, k', hrec⟩ := ih htail gen k
          exact ⟨e, k', by simp only [transform_accountPolicies, htgt', hdir', hrec]⟩
        | some pd' =>
          cases hpol : transform_policy (gen k) pd' with
          | error msg =>
            exact ⟨msg, k + 1,
              by simp only [transform_accountPolicies, htgt', hdir', hpol]⟩
          | ok doc =>
            obtain ⟨e, k', hrec⟩ := ih htail gen (k + 1)
            exact ⟨e, k',
              by simp only [transform_accountPolicies, htgt', hdir', hpol, hrec]⟩

theorem transform_account_err {pdirs : List (String × PolicyDir)} {pref nm : String}
    {pd : PolicyDir} {raw : AccountRaw} (hpref : pref ∈ raw.policies)
    (htgt : policyRefTarget pref = some nm) (hdir : lookupDir pdirs nm = some pd)
    (hmd : missingDescriptor pd) (gen : Nat → String) (k : Nat) (fname dcb : String) :
    ∃ e, (transform_account gen k fname raw pdirs dcb).1 = Except.error e := by
  unfold transform_account
  cases hsp : splitFirstDash (fileStem fname) with
  | none => exact ⟨_, rfl⟩
  | some p =>
    obtain ⟨e, k', hrec⟩ := transform_accountPolicies_err htgt hdir hmd raw.policies hpref gen k
    rw [hrec]
    exact ⟨e, rfl⟩

/-- C6: if a resolved policy of an account misses its policy.json, its terms
directory, a term descriptor or a transactions directory, then
transform_account fails on that account at every uuid-counter position, the
account contributes no record to the output (also none of its policies
transformed before the failure), and the other accounts are still processed
in order. -/
theorem claim_C6 (gen : Nat → String) (tree : SourceTree) (dcb : String)
    (listing : List (String × AccountRaw)) (pdirs : List (String × PolicyDir))
    (fname : String) (raw : AccountRaw) (pref nm : String) (pd : PolicyDir)
    (hacc : tree.accounts = some listing) (hpol : tree.policies = some pdirs)
    (_hmem : (fname, raw) ∈ listing) (_hglob : matchesAccountGlob fname = true)
    (hpref : pref ∈ raw.policies) (htgt : policyRefTarget pref = some nm)
    (hdir : lookupDir pdirs nm = some pd) (hmd : missingDescriptor pd) :
    (∀ (k : Nat) (dcb' : String),
      ∃ e, (transform_account gen k fname raw pdirs dcb').1 = Except.error e) ∧
    ∃ out sub, convert_main gen tree dcb = some out ∧
      sub.Sublist (accountFiles listing) ∧ (fname, raw) ∉ sub ∧
      List.Forall₂ (fun fr doc =>
        ∃ k, (transform_account gen k fr.1 fr.2 pdirs dcb).1 = Except.ok doc) sub out := by
  have herr : ∀ (k : Nat) (dcb' : String),
      ∃ e, (transform_account gen k fname raw pdirs dcb').1 = Except.error e :=
    fun k dcb' => transform_account_err hpref htgt hdir hmd gen k fname dcb'
  refine ⟨herr, ?_⟩
  obtain ⟨sub, hsub, hf⟩ := convert_accounts_sublist gen pdirs dcb (accountFiles listing) 0
  refine ⟨convert_accounts gen pdirs dcb (accountFiles listing) 0, sub, ?_, hsub, ?_, hf⟩
  · unfold convert_main
    rw [hacc, hpol]
  · intro hin
    obtain ⟨doc, _, k, hok⟩ := forall₂_mem_left hf (fname, raw) hin
    obtain ⟨e, he⟩ := herr k dcb
    rw [hok] at he
    exact absurd he (by simp)

def pdC6bad : PolicyDir := { policyJson := none, termsDir := some [] }

def rawC6bad : AccountRaw :=
  { type := none, fields := none, billing := none, created := none, policies := ["policy-9"] }

def rawC6good : AccountRaw :=
  { type := some "gt", fields := none, billing := none, created := none, policies := [] }

def treeC6 : SourceTree :=
  { accounts := some [("account-bad.json", rawC6bad), ("account-good.json", rawC6good)]
    policies := some [("policy-9", pdC6bad)] }

def docC6good : AccountDoc :=
  { accountData :=
      { id := "good", accountType := some "gt", data := [], billingLevel := none
        createdAt := none }
    defaultCreatedBy := "d", policies := [] }

theorem claim_C6_witness :
    convert_main (fun _ => "u") treeC6 "d" = some [docC6good] ∧
    (∀ (k : Nat) (dcb' : String),
      ∃ e, (transform_account (fun _ => "u") k "account-bad.json" rawC6bad
        [("policy-9", pdC6bad)] dcb').1 = Except.error e) ∧
    (∃ out sub, convert_main (fun _ => "u") treeC6 "d" = some out ∧
      sub.Sublist (accountFiles [("account-bad.json", rawC6bad), ("account-good.json", rawC6good)]) ∧
      ("account-bad.json", rawC6bad) ∉ sub ∧
      List.Forall₂ (fun fr doc =>
        ∃ k, (transform_account (fun _ => "u") k fr.1 fr.2
          [("policy-9", pdC6bad)] "d").1 = Except.ok doc) sub out) :=
  ⟨by decide,
   (claim_C6 (fun _ => "u") treeC6 "d"
      [("account-bad.json", rawC6bad), ("account-good.json", rawC6good)]
      [("policy-9", pdC6bad)] "account-bad.json" rawC6bad "policy-9" "policy-9" pdC6bad
      rfl rfl (by decide) (by decide) (by decide) (by decide) (by decide) (Or.inl rfl)).1,
   (claim_C6 (fun _ => "u") treeC6 "d"
      [("account-bad.json", rawC6bad), ("account-good.json", rawC6good)]
      [("policy-9", pdC6bad)] "account-bad.json" rawC6bad "policy-9" "policy-9" pdC6bad
      rfl rfl (by decide) (by decide) (by decide) (by decide) (by decide) (Or.inl rfl)).2⟩

/-! ## Claim C3: pagination of the mapping fetcher -/

theorem flatMap_map_comp {α β γ : Type} (g : α → β) (f : β → List γ) :
    ∀ l : List α, (l.map g).flatMap f = l.flatMap (fun x => f (g x))
  | [] => rfl
  | x :: xs => by simp [flatMap_map_comp g f xs]

theorem range_flatMap_shift {γ : Type} (f : Nat → List γ) (d : Nat) :
    (List.range (d + 2)).flatMap f =
      f 0 ++ (List.range (d + 1)).flatMap (fun k => f (k + 1)) := by
  rw [List.range_succ_eq_map]
  simp only [List.flatMap_cons]
  rw [flatMap_map_comp]

theorem range_map_shift {γ : Type} (f : Nat → γ) (d : Nat) :
    (List.range (d + 2)).map f = f 0 :: (List.range (d + 1)).map (fun k => f (k + 1)) := by
  rw [List.range_succ_eq_map]
  simp only [List.map_cons, List.map_map]
  rfl

theorem fetch_go_spec {α : Type} (server : Nat → Page α) (ps : Nat) :
    ∀ (d start fuel : Nat) (acc : List α) (reqs : List Nat),
      (∀ k, k < d → (server ((start + k) * ps)).listCompleted = false) →
      (server ((start + d) * ps)).listCompleted = true →
      d + 1 ≤ fuel →
      fetch_go server ps fuel (start * ps) acc reqs =
        some (acc ++ (List.range (d + 1)).flatMap (fun k => (server ((start + k) * ps)).items),
          reqs ++ (List.range (d + 1)).map (fun k => (start + k) * ps)) := by
  intro d
  induction d with
  | zero =>
    intro start fuel acc reqs _ hlast hfuel
    cases fuel with
    | zero => exact absurd hfuel (by omega)
    | succ f =>
      simp only [fetch_go]
      rw [show start + 0 = start from rfl] at hlast
      rw [hlast]
      simp [List.range_succ]
  | succ d ih =>
    intro start fuel acc reqs hmid hlast hfuel
    cases fuel with
    | zero => exact absurd hfuel (by omega)
    | succ f =>
      simp only [fetch_go]
      have h0 : (server (start * ps)).listCompleted = false := by
        have h00 := hmid 0 (Nat.succ_pos d)
        rw [show start + 0 = start from rfl] at h00
        exact h00
      rw [h0]
      simp only [Bool.false_eq_true, if_false]
      rw [show start * ps + ps = (start + 1) * ps from by ring]
      have hmid' : ∀ k, k < d → (server ((start + 1 + k) * ps)).listCompleted = false := by
        intro k hk
        have hmk := hmid (k + 1) (by omega)
        rw [show start + (k + 1) = start + 1 + k from by omega] at hmk
        exact hmk
      have hlast' : (server ((start + 1 + d) * ps)).listCompleted = true := by
        rw [show start + 1 + d = start + (d + 1) from by omega]
        exact hlast
      rw [ih (start + 1) f (acc ++ (server (start * ps)).items) (reqs ++ [start * ps])
        hmid' hlast' (by omega)]
      have h1 : (List.range (d + 1 + 1)).flatMap (fun k => (server ((start + k) * ps)).items) =
          (server (start * ps)).items ++
            (List.range (d + 1)).flatMap (fun k => (server ((start + 1 + k) * ps)).items) := by
      -- range (d+2) peels its first page
        rw [range_flatMap_shift]
        have harg : (fun k => (server ((start + (k + 1)) * ps)).items) =
            (fun k => (server ((start + 1 + k) * ps)).items) := by
          funext k
          rw [show start + (k + 1) = start + 1 + k from by omega]
        rw [harg]
        rfl
      have h2 : (List.range (d + 1 + 1)).map (fun k => (start + k) * ps) =
          start * ps :: (List.range (d + 1)).map (fun k => (start + 1 + k) * ps) := by
        rw [range_map_shift]
        have harg : (fun k => (start + (k + 1)) * ps) = (fun k => (start + 1 + k) * ps) := by
          funext k
          rw [show start + (k + 1) = start + 1 + k from by omega]
        rw [harg]
        rfl
      rw [h1, h2]
      simp [List.append_assoc]

/-- C3: the fetcher requests offsets 0, pageSize, 2*pageSize, ... in order,
concatenates the items of each response in order, and stops exactly with the
first response whose listCompleted flag is true (the response at page index
n), having issued exactly n+1 requests. -/
theorem claim_C3 {α : Type} (server : Nat → Page α) (pageSize n fuel : Nat)
    (hmid : ∀ k, k < n → (server (k * pageSize)).listCompleted = false)
    (hlast : (server (n * pageSize)).listCompleted = true)
    (hfuel : n + 1 ≤ fuel) :
    fetch_mappings server pageSize fuel =
      some ((List.range (n + 1)).flatMap (fun k => (server (k * pageSize)).items),
        (List.range (n + 1)).map (fun k => k * pageSize)) := by
  unfold fetch_mappings
  have h := fetch_go_spec server pageSize n 0 fuel [] []
    (by intro k hk; rw [show (0 : Nat) + k = k from by omega]; exact hmid k hk)
    (by rw [show (0 : Nat) + n = n from by omega]; exact hlast) hfuel
  rw [show (0 : Nat) * pageSize = 0 from by omega] at h
  rw [h]
  simp only [List.nil_append]
  have harg1 : (fun k => (server ((0 + k) * pageSize)).items) =
      (fun k => (server (k * pageSize)).items) := by
    funext k
    rw [show (0 : Nat) + k = k from by omega]
  have harg2 : (fun k => (0 + k) * pageSize) = (fun k : Nat => k * pageSize) := by
    funext k
    rw [show (0 : Nat) + k = k from by omega]
  rw [harg1, harg2]

/-- The two-page server of the specification's pagination example. -/
def serverC3 : Nat → Page String :=
  fun off => if off = 0 then { items := ["a", "b"], listCompleted := false }
    else { items := ["c"], listCompleted := true }

theorem claim_C3_witness :
    (∀ k, k < 1 → (serverC3 (k * 5)).listCompleted = false) ∧
    (serverC3 (1 * 5)).listCompleted = true ∧
    fetch_mappings serverC3 5 2 =
      some ((List.range 2).flatMap (fun k => (serverC3 (k * 5)).items),
        (List.range 2).map (fun k => k * 5)) ∧
    (List.range 2).flatMap (fun k => (serverC3 (k * 5)).items) = ["a", "b", "c"] ∧
    (List.range 2).map (fun k => k * 5) = [0, 5] :=
  ⟨by decide, by decide,
   claim_C3 serverC3 5 1 2 (by decide) (by decide) (by decide),
   by decide, by decide⟩

/-! ## Claim C8: missing-accounts diagnostic is the set difference -/

/-- C8: for a finished locator whose mappings were fetched, the loop emits
exactly one [Mappings] diagnostic carrying the set difference
expected - migrated when that difference is non-empty, and no [Mappings]
diagnostic when every expected identifier was migrated; membership in the
reported set is exactly membership in the difference. -/
theorem claim_C8 (fetch : String → Except String (List (Option String)))
    (l : List String) (locator status : String) (rest : List (String × String))
    (errs : List Diag) (cnt : Nat) (ms : List (Option String))
    (hst : pyLower status = "finished") (hf : fetch locator = Except.ok ms) :
    (∀ x, x ∈ missingIds (l.filterMap extractAccountId) ms ↔
      (x ∈ l.filterMap extractAccountId ∧ some x ∉ ms)) ∧
    ((∀ x ∈ l.filterMap extractAccountId, some x ∈ ms) →
      missingIds (l.filterMap extractAccountId) ms = []) ∧
    checksLoop fetch (some l) ((locator, status) :: rest) errs cnt =
      checksLoop fetch (some l) rest
        (errs ++ (if missingIds (l.filterMap extractAccountId) ms = [] then []
          else [Diag.mappingsMissing locator (missingIds (l.filterMap extractAccountId) ms)]))
        (cnt + 1) := by
  have hmemiff : ∀ x, x ∈ missingIds (l.filterMap extractAccountId) ms ↔
      (x ∈ l.filterMap extractAccountId ∧ some x ∉ ms) := by
    intro x
    unfold missingIds
    rw [List.mem_filter, List.mem_dedup]
    constructor
    · intro ⟨hmem, hpred⟩
      refine ⟨hmem, ?_⟩
      intro hin
      rw [Bool.not_eq_eq_eq_not, Bool.not_true] at hpred
      have hc : ms.contains (some x) = true := List.elem_eq_true_of_mem hin
      rw [hpred] at hc
      exact absurd hc (by simp)
    · intro ⟨hmem, hnot⟩
      refine ⟨hmem, ?_⟩
      rw [Bool.not_eq_eq_eq_not, Bool.not_true]
      cases hc : ms.contains (some x) with
      | false => rfl
      | true => exact absurd (List.mem_of_elem_eq_true hc) hnot
  refine ⟨hmemiff, ?_, ?_⟩
  · intro hall
    cases hm : missingIds (l.filterMap extractAccountId) ms with
    | nil => rfl
    | cons x xs =>
      exfalso
      have hx : x ∈ missingIds (l.filterMap extractAccountId) ms := by
        rw [hm]; exact List.mem_cons_self x xs
      obtain ⟨hxe, hxn⟩ := (hmemiff x).mp hx
      exact hxn (hall x hxe)
  · simp only [checksLoop, hst, hf, load_source_accounts, ne_eq, not_true_eq_false,
      if_false]
    by_cases hmiss : missingIds (l.filterMap extractAccountId) ms = []
    · rw [if_pos hmiss, if_pos hmiss, List.append_nil]
    · rw [if_neg hmiss, if_neg hmiss]

def listingC8 : List String := ["account-1.json", "account-2.json", "account-3.json"]

def migratedC8 : List (Option String) := [some "1", some "3"]

theorem claim_C8_witness :
    missingIds (listingC8.filterMap extractAccountId) migratedC8 = ["2"] ∧
    (∀ x, x ∈ missingIds (listingC8.filterMap extractAccountId) migratedC8 ↔
      (x ∈ listingC8.filterMap extractAccountId ∧ some x ∉ migratedC8)) ∧
    (∀ (rest : List (String × String)) (errs : List Diag) (cnt : Nat),
      checksLoop (fun _ => Except.ok migratedC8) (some listingC8)
        (("LOC", "Finished") :: rest) errs cnt =
      checksLoop (fun _ => Except.ok migratedC8) (some listingC8) rest
        (errs ++ [Diag.mappingsMissing "LOC" ["2"]]) (cnt + 1)) := by
  refine ⟨by decide, ?_, ?_⟩
  · exact (claim_C8 (fun _ => Except.ok migratedC8) listingC8 "LOC" "Finished" [] [] 0
      migratedC8 (by decide) rfl).1
  · intro rest errs cnt
    have hstep := (claim_C8 (fun _ => Except.ok migratedC8) listingC8 "LOC" "Finished"
      rest errs cnt migratedC8 (by decide) rfl).2.2
    rw [hstep]
    have hval : (if missingIds (List.filterMap extractAccountId listingC8) migratedC8 = []
        then ([] : List Diag)
        else [Diag.mappingsMissing "LOC"
          (missingIds (List.filterMap extractAccountId listingC8) migratedC8)]) =
        [Diag.mappingsMissing "LOC" ["2"]] := by decide
    rw [hval]

/-! ## Claim C1 (corrected): when the missing accounts directory is noticed -/

/-- Whether an Except value is a success. -/
def isOkB {ε α : Type} : Except ε α → Bool
  | Except.ok _ => true
  | Except.error _ => false

def envC1 : ChecksEnv :=
  { requests_list := [("L1", "queued")], source_data_isdir := true, accounts_listing := none }

def fetchC1 : String → Except String (List (Option String)) := fun _ => Except.ok []

/-- C1 counterexample: with the accounts subdirectory missing and a request
list containing no finished locator, the run completes normally (no
sys.exit) and the directory is never scanned - so the missing directory is
neither located at startup nor fatal for the entire run. -/
theorem claim_C1_cex :
    envC1.accounts_listing = none ∧
    checks_main envC1 fetchC1 = (Sum.inr [Diag.status "L1" "queued"], 0) :=
  ⟨rfl, by decide⟩

theorem checksLoop_none_exit (fetch : String → Except String (List (Option String))) :
    ∀ (reqs : List (String × String)) (errs : List Diag) (cnt : Nat),
      (∃ p ∈ reqs, pyLower p.2 = "finished" ∧ isOkB (fetch p.1) = true) →
      (checksLoop fetch none reqs errs cnt).1 = Sum.inl 1 := by
  intro reqs
  induction reqs with
  | nil =>
    intro errs cnt hex
    obtain ⟨p, hp, _⟩ := hex
    exact absurd hp (List.not_mem_nil p)
  | cons q rest ih =>
    intro errs cnt hex
    obtain ⟨loc, st⟩ := q
    by_cases hst : pyLower st = "finished"
    · cases hfl : fetch loc with
      | error e =>
        have hrest : ∃ p ∈ rest, pyLower p.2 = "finished" ∧ isOkB (fetch p.1) = true := by
          obtain ⟨p, hp, hfin, hok⟩ := hex
          rcases List.mem_cons.mp hp with heq | htail
          · subst heq
            rw [hfl] at hok
            exact absurd hok (by simp [isOkB])
          · exact ⟨p, htail, hfin, hok⟩
        simp only [checksLoop, hst, hfl, ne_eq, not_true_eq_false, if_false]
        exact ih _ _ hrest
      | ok ms =>
        simp only [checksLoop, hst, hfl, load_source_accounts, ne_eq, not_true_eq_false,
          if_false]
    · have hrest : ∃ p ∈ rest, pyLower p.2 = "finished" ∧ isOkB (fetch p.1) = true := by
        obtain ⟨p, hp, hfin, hok⟩ := hex
        rcases List.mem_cons.mp hp with heq | htail
        · subst heq; exact absurd hfin hst
        · exact ⟨p, htail, hfin, hok⟩
      have hcond : pyLower st ≠ "finished" := hst
      simp only [checksLoop, ne_eq, if_pos hcond]
      exact ih _ _ hrest

theorem checksLoop_count (fetch : String → Except String (List (Option String)))
    (l : List String) :
    ∀ (reqs : List (String × String)) (errs : List Diag) (cnt : Nat),
      (checksLoop fetch (some l) reqs errs cnt).2 =
        cnt + (reqs.filter (fun p => pyLower p.2 == "finished" && isOkB (fetch p.1))).length := by
  intro reqs
  induction reqs with
  | nil => intro errs cnt; simp [checksLoop]
  | cons q rest ih =>
    intro errs cnt
    obtain ⟨loc, st⟩ := q
    by_cases hst : pyLower st = "finished"
    · cases hfl : fetch loc with
      | error e =>
        have hpred : (pyLower st == "finished" && isOkB (fetch loc)) = false := by
          rw [hfl]
          simp [isOkB]
        simp only [checksLoop, hst, hfl, ne_eq, not_true_eq_false, if_false,
          List.filter_cons, hpred]
        exact ih _ _
      | ok ms =>
        have hpred : (pyLower st == "finished" && isOkB (fetch loc)) = true := by
          rw [hfl, hst]
          simp [isOkB]
        simp only [checksLoop, hst, hfl, load_source_accounts, ne_eq, not_true_eq_false,
          if_false, List.filter_cons, hpred]
        by_cases hmiss : missingIds (l.filterMap extractAccountId) ms = []
        · rw [if_pos hmiss, ih _ _]
          simp only [isOkB, Bool.and_true, beq_self_eq_true, if_true, List.length_cons]
          omega
        · rw [if_neg hmiss, ih _ _]
          simp only [isOkB, Bool.and_true, beq_self_eq_true, if_true, List.length_cons]
          omega
    · have hcond : pyLower st ≠ "finished" := hst
      have hpred : (pyLower st == "finished" && isOkB (fetch loc)) = false := by
        simp only [Bool.and_eq_false_iff]
        left
        simpa using hst
      simp only [checksLoop, ne_eq, if_pos hcond, List.filter_cons, hpred]
      exact ih _ _

/-- C1 as amended: when the request list is non-empty and the source-data
root exists, a missing accounts subdirectory is fatal only once the first
finished locator whose mapping fetch succeeds is reached (sys.exit 1 inside
the per-locator loop); when the directory exists it is scanned once per
finished locator with a successful fetch - not once at startup. -/
theorem claim_C1 (env : ChecksEnv) (fetch : String → Except String (List (Option String)))
    (hne : env.requests_list ≠ []) (hsrc : env.source_data_isdir = true) :
    (env.accounts_listing = none →
      (∃ p ∈ env.requests_list, pyLower p.2 = "finished" ∧ isOkB (fetch p.1) = true) →
      (checks_main env fetch).1 = Sum.inl 1) ∧
    (∀ l, env.accounts_listing = some l →
      (checks_main env fetch).2 =
        (env.requests_list.filter
          (fun p => pyLower p.2 == "finished" && isOkB (fetch p.1))).length) := by
  have hempty : env.requests_list.isEmpty = false := by
    cases hreq : env.requests_list with
    | nil => exact absurd hreq hne
    | cons q rest => rfl
  constructor
  · intro hnone hex
    unfold checks_main
    rw [hempty, hsrc, hnone]
    simp only [Bool.not_true, if_false, Bool.false_eq_true]
    exact checksLoop_none_exit fetch env.requests_list [] 0 hex
  · intro l hsome
    unfold checks_main
    rw [hempty, hsrc, hsome]
    simp only [Bool.not_true, if_false, Bool.false_eq_true]
    rw [checksLoop_count fetch l env.requests_list [] 0]
    omega

def envC1b : ChecksEnv :=
  { requests_list := [("L1", "FINISHED")], source_data_isdir := true, accounts_listing := none }

def envC1c : ChecksEnv :=
  { requests_list := [("L1", "finished"), ("L2", "queued"), ("L3", "finished")]
    source_data_isdir := true
    accounts_listing := some ["account-1.json"] }

theorem claim_C1_witness :
    (checks_main envC1b fetchC1).1 = Sum.inl 1 ∧
    (checks_main envC1c fetchC1).2 = 2 := by
  constructor
  · exact (claim_C1 envC1b fetchC1 (by decide) rfl).1 rfl
      ⟨("L1", "FINISHED"), by decide, by decide, by decide⟩
  · have hc := (claim_C1 envC1c fetchC1 (by decide) rfl).2 ["account-1.json"] rfl
    rw [hc]
    decide

end Migration
